import Mathlib

/-!
Verification of the profile-extraction and design-vs-as-built comparison core of the
conciliacion-geo repository (src/core/param_extractor.py and the interactive edit
endpoint of src/api/main.py), as a shallow embedding over exact rational arithmetic.

Conventions of the embedding:
- Python floats are modelled as rationals; arithmetic is exact.
- The transcendental helper fun dy dx => abs (degrees (atan2 dy dx)) (np.degrees of
  np.arctan2 followed by np.abs) has no exact rational realisation, so every function
  that needs it takes it as an explicit argument named ang; theorems about structural
  invariants quantify over all such ang. Likewise np.sqrt is passed as sqrtq.
  Comparisons that the source performs on distances or angles are embedded in exactly
  equivalent rational form (squared form) whenever the source compares a square root
  against a constant; these spots are noted in the doc comments.
- np.argmax is modelled by idxOfMax, the first index of the maximum.
- scipy.optimize.linear_sum_assignment (an external library routine) is modelled by
  its documented semantics: a minimum-total-cost one-to-one assignment matching
  min(n_rows, n_cols) pairs, realised here as an argmin over all candidate
  assignments.
-/

/-- Parameters of a single bench, mirroring the BenchParams dataclass. -/
structure BenchParams where
  bench_number : ℕ
  crest_elevation : ℚ
  crest_distance : ℚ
  toe_elevation : ℚ
  toe_distance : ℚ
  bench_height : ℚ
  face_angle : ℚ
  berm_width : ℚ
  is_ramp : Bool := false
deriving DecidableEq, Repr

/-- Default bench used only as the out-of-range placeholder of list lookups. -/
def defaultBench : BenchParams :=
  { bench_number := 0, crest_elevation := 0, crest_distance := 0, toe_elevation := 0,
    toe_distance := 0, bench_height := 0, face_angle := 0, berm_width := 0, is_ramp := false }

instance : Inhabited BenchParams := ⟨defaultBench⟩

/-- Result of parameter extraction for a section, mirroring the ExtractionResult dataclass. -/
structure ExtractionResult where
  section_name : String
  sector : String
  benches : List BenchParams := []
  inter_ramp_angle : ℚ := 0
  overall_angle : ℚ := 0
deriving DecidableEq, Repr

/-- Squared euclidean distance between two 2D points. -/
def distSq (a b : ℚ × ℚ) : ℚ := (b.1 - a.1) ^ 2 + (b.2 - a.2) ^ 2

/-- Scalar 2D cross product of the chord vector (e - s) with (p - s); this is the value
    np.cross(line_vec, p - start_pt) computes for 2D inputs. -/
def chordCross (s e p : ℚ × ℚ) : ℚ := (e.1 - s.1) * (p.2 - s.2) - (e.2 - s.2) * (p.1 - s.1)

/-- First index of the maximum of a list of rationals; models np.argmax, which returns
    the first occurrence of the maximum. -/
def idxOfMax : List ℚ → ℕ
  | [] => 0
  | [_] => 0
  | x :: y :: t =>
    let j := idxOfMax (y :: t)
    if x < (y :: t).getD j 0 then j + 1 else 0

theorem idxOfMax_lt_length : ∀ (l : List ℚ), l ≠ [] → idxOfMax l < l.length
  | [], h => absurd rfl h
  | [_], _ => Nat.zero_lt_one
  | x :: y :: t, _ => by
    show (if x < (y :: t).getD (idxOfMax (y :: t)) 0 then idxOfMax (y :: t) + 1 else 0) <
      (x :: y :: t).length
    have ih := idxOfMax_lt_length (y :: t) (by simp)
    simp only [List.length_cons] at ih ⊢
    by_cases hc : x < (y :: t).getD (idxOfMax (y :: t)) 0
    · simp only [if_pos hc]
      omega
    · simp only [if_neg hc]
      omega

theorem getD_le_idxOfMax : ∀ (l : List ℚ) (k : ℕ), k < l.length →
    l.getD k 0 ≤ l.getD (idxOfMax l) 0
  | [], k, h => by simp at h
  | [a], k, h => by
    have hk : k = 0 := by simpa using Nat.lt_one_iff.mp (by simpa using h)
    subst hk
    simp [idxOfMax]
  | x :: y :: t, k, h => by
    have ih : ∀ k < (y :: t).length, (y :: t).getD k 0 ≤ (y :: t).getD (idxOfMax (y :: t)) 0 :=
      fun k hk => getD_le_idxOfMax (y :: t) k hk
    show (x :: y :: t).getD k 0 ≤ (x :: y :: t).getD
      (if x < (y :: t).getD (idxOfMax (y :: t)) 0 then idxOfMax (y :: t) + 1 else 0) 0
    by_cases hc : x < (y :: t).getD (idxOfMax (y :: t)) 0
    · rw [if_pos hc]
      match k with
      | 0 => exact le_of_lt hc
      | k + 1 =>
        have : (x :: y :: t).getD (k + 1) 0 = (y :: t).getD k 0 := rfl
        rw [this]
        exact ih k (by simpa using h)
    · rw [if_neg hc]
      match k with
      | 0 => exact le_refl _
      | k + 1 =>
        have h1 : (x :: y :: t).getD (k + 1) 0 = (y :: t).getD k 0 := rfl
        rw [h1]
        exact le_trans (ih k (by simpa using h)) (not_lt.mp hc)

theorem getD_lt_of_lt_idxOfMax : ∀ (l : List ℚ) (k : ℕ), k < idxOfMax l →
    l.getD k 0 < l.getD (idxOfMax l) 0
  | [], k, h => by simp [idxOfMax] at h
  | [a], k, h => by simp [idxOfMax] at h
  | x :: y :: t, k, h => by
    have ih : ∀ k < idxOfMax (y :: t), (y :: t).getD k 0 < (y :: t).getD (idxOfMax (y :: t)) 0 :=
      fun k hk => getD_lt_of_lt_idxOfMax (y :: t) k hk
    show (x :: y :: t).getD k 0 < (x :: y :: t).getD
      (if x < (y :: t).getD (idxOfMax (y :: t)) 0 then idxOfMax (y :: t) + 1 else 0) 0
    by_cases hc : x < (y :: t).getD (idxOfMax (y :: t)) 0
    · rw [if_pos hc]
      have hk : k < idxOfMax (y :: t) + 1 := by
        have : idxOfMax (x :: y :: t) = idxOfMax (y :: t) + 1 := by
          show (if x < (y :: t).getD (idxOfMax (y :: t)) 0 then idxOfMax (y :: t) + 1 else 0) = _
          rw [if_pos hc]
        rw [this] at h
        exact h
      match k with
      | 0 => exact hc
      | k + 1 =>
        have h1 : (x :: y :: t).getD (k + 1) 0 = (y :: t).getD k 0 := rfl
        rw [h1]
        exact ih k (by omega)
    · exfalso
      have : idxOfMax (x :: y :: t) = 0 := by
        show (if x < (y :: t).getD (idxOfMax (y :: t)) 0 then idxOfMax (y :: t) + 1 else 0) = 0
        rw [if_neg hc]
      omega

/-- The list of squared perpendicular-distance numerators of the interior points of a
    polyline to the chord from its first to its last point, falling back to squared
    euclidean distances to the start point when the chord has zero length; this is the
    squared form of the dists array of ramer_douglas_peucker. -/
def rdpDistsSq (points : List (ℚ × ℚ)) : List ℚ :=
  if distSq (points.getD 0 (0, 0)) (points.getD (points.length - 1) (0, 0)) = 0 then
    ((points.drop 1).take (points.length - 2)).map (fun p => distSq (points.getD 0 (0, 0)) p)
  else
    ((points.drop 1).take (points.length - 2)).map
      (fun p => (chordCross (points.getD 0 (0, 0)) (points.getD (points.length - 1) (0, 0)) p) ^ 2)

/-- The split index of the recursive step of ramer_douglas_peucker: the position, in the
    full point list, of the interior point farthest from the chord (first maximum). -/
def rdpIndex (points : List (ℚ × ℚ)) : ℕ := idxOfMax (rdpDistsSq points) + 1

theorem rdpDistsSq_length (points : List (ℚ × ℚ)) :
    (rdpDistsSq points).length = points.length - 2 := by
  unfold rdpDistsSq
  split <;> rw [List.length_map, List.length_take, List.length_drop] <;> omega

theorem rdpIndex_bounds (points : List (ℚ × ℚ)) (h : 3 ≤ points.length) :
    1 ≤ rdpIndex points ∧ rdpIndex points ≤ points.length - 2 := by
  have hlen := rdpDistsSq_length points
  have hne : rdpDistsSq points ≠ [] := by
    intro hnil
    rw [hnil] at hlen
    simp only [List.length_nil] at hlen
    omega
  have hlt := idxOfMax_lt_length _ hne
  rw [hlen] at hlt
  unfold rdpIndex
  omega

/-- Largest entry of the squared-distance list (the value at the argmax position);
    the squared numerator of the dmax of ramer_douglas_peucker. -/
def rdpDmaxSq (points : List (ℚ × ℚ)) : ℚ :=
  (rdpDistsSq points).getD (idxOfMax (rdpDistsSq points)) 0

/-- Denominator correction of the squared comparison of ramer_douglas_peucker: the
    squared chord length, or 1 in the zero-chord branch where the distances are plain
    euclidean distances. -/
def rdpScale (points : List (ℚ × ℚ)) : ℚ :=
  if distSq (points.getD 0 (0, 0)) (points.getD (points.length - 1) (0, 0)) = 0 then 1
  else distSq (points.getD 0 (0, 0)) (points.getD (points.length - 1) (0, 0))

/-- Ramer-Douglas-Peucker polyline simplification; models ramer_douglas_peucker of
    src/core/param_extractor.py. The source compares dmax (the largest perpendicular
    distance of an interior point to the chord, or the euclidean distance to the start
    point when the chord has zero length) against epsilon. Since dmax is a square root,
    the comparison dmax > epsilon is embedded in the exactly equivalent rational form
    epsilon < 0 or epsilon^2 * rdpScale < rdpDmaxSq (squaring is strictly monotone on
    nonnegatives, so the comparison and the argmax position both agree with the
    source). -/
def ramer_douglas_peucker (points : List (ℚ × ℚ)) (epsilon : ℚ) : List (ℚ × ℚ) :=
  if points.length < 3 then points
  else if epsilon < 0 ∨ epsilon ^ 2 * rdpScale points < rdpDmaxSq points then
    (ramer_douglas_peucker (points.take (rdpIndex points + 1)) epsilon).dropLast ++
      ramer_douglas_peucker (points.drop (rdpIndex points)) epsilon
  else
    [points.getD 0 (0, 0), points.getD (points.length - 1) (0, 0)]
termination_by points.length
decreasing_by
  · have hb := rdpIndex_bounds points (by omega)
    simp only [List.length_take]
    omega
  · have hb := rdpIndex_bounds points (by omega)
    simp only [List.length_drop]
    omega

/-- Consecutive differences of a list; models np.diff. -/
def diffs (l : List ℚ) : List ℚ := (l.zip l.tail).map (fun p => p.2 - p.1)

/-- Centered moving average with window 3 and replicated edges; models
    scipy.ndimage.uniform_filter1d(angles, size=3, mode=nearest) together with the
    surrounding guard that leaves lists shorter than 3 untouched. -/
def smooth3 (a : List ℚ) : List ℚ :=
  if a.length < 3 then a
  else (List.range a.length).map (fun i =>
    (a.getD (i - 1) 0 + a.getD i 0 + a.getD (min (i + 1) (a.length - 1)) 0) / 3)

/-- Indices of rising edges of the steepness sequence (segment i steep, segment i-1 flat);
    these vertices are recorded as crests. -/
def risingIndices (steep : List Bool) : List ℕ :=
  ((List.range steep.length).drop 1).filter
    (fun i => steep.getD i false && ! steep.getD (i - 1) false)

/-- Indices of falling edges of the steepness sequence (segment i flat, segment i-1 steep);
    these vertices are recorded as toes. -/
def fallingIndices (steep : List Bool) : List ℕ :=
  ((List.range steep.length).drop 1).filter
    (fun i => ! steep.getD i false && steep.getD (i - 1) false)

/-- The crest-toe pairing loop of extract_parameters (step 5). For each crest the toe
    cursor advances to the first toe strictly after it; candidates failing the minimum
    height (2.0) or minimum face length (1.5, compared here in squared form as 9/4
    against the squared face length) are skipped; accepted candidates get.the
    length-weighted face angle described in the source. -/
def buildCandidates (simplified : List (ℚ × ℚ)) (angles segLens : List ℚ)
    (face_threshold : ℚ) : List ℕ → List ℕ → ℕ → List BenchParams
  | [], _, _ => []
  | c :: cs, toes, num =>
    match toes.dropWhile (fun t => decide (t ≤ c)) with
    | [] => []
    | t :: ts =>
      let crest_pt := simplified.getD c (0, 0)
      let toe_pt := simplified.getD t (0, 0)
      let crest := if toe_pt.2 < crest_pt.2 then crest_pt else toe_pt
      let toe := if toe_pt.2 < crest_pt.2 then toe_pt else crest_pt
      let bench_height := |crest.2 - toe.2|
      if bench_height < 2 then buildCandidates simplified angles segLens face_threshold cs ts num
      else if distSq crest toe < 9/4 then
        buildCandidates simplified angles segLens face_threshold cs ts num
      else
        let segStart := min c t
        let segEnd := max c t
        let localAng := (angles.drop segStart).take (segEnd - segStart)
        let localLen := (segLens.drop segStart).take (segEnd - segStart)
        let pairs := localAng.zip localLen
        let steepPairs := pairs.filter (fun p => decide (face_threshold - 10 < p.1))
        let wa :=
          if segStart < segEnd then
            if steepPairs ≠ [] ∧ (1/10 : ℚ) < (steepPairs.map Prod.snd).sum then
              (steepPairs.map (fun p => p.1 * p.2)).sum / (steepPairs.map Prod.snd).sum
            else if 0 < localLen.sum then
              (pairs.map (fun p => p.1 * p.2)).sum / localLen.sum
            else face_threshold
          else face_threshold
        { bench_number := num + 1,
          crest_elevation := crest.2, crest_distance := crest.1,
          toe_elevation := toe.2, toe_distance := toe.1,
          bench_height := bench_height, face_angle := wa, berm_width := 0 } ::
          buildCandidates simplified angles segLens face_threshold cs ts (num + 1)

/-- The merged bench of two consecutive micro-benches (step 6a of extract_parameters). -/
def mergeBench (prev curr : BenchParams) : BenchParams :=
  { bench_number := prev.bench_number,
    crest_elevation := max prev.crest_elevation curr.crest_elevation,
    crest_distance :=
      if curr.crest_elevation ≤ prev.crest_elevation then prev.crest_distance
      else curr.crest_distance,
    toe_elevation := min prev.toe_elevation curr.toe_elevation,
    toe_distance :=
      if prev.toe_elevation ≤ curr.toe_elevation then prev.toe_distance
      else curr.toe_distance,
    bench_height :=
      |max prev.crest_elevation curr.crest_elevation - min prev.toe_elevation curr.toe_elevation|,
    face_angle := (prev.face_angle * prev.bench_height + curr.face_angle * curr.bench_height) /
      (prev.bench_height + curr.bench_height),
    berm_width := 0 }

/-- The scan of the micro-bench merge: the running bench prev is merged with the next
    candidate when the toe-to-crest gap is below 2.0 and either height is below 3.0. -/
def mergeFold : BenchParams → List BenchParams → List BenchParams
  | prev, [] => [prev]
  | prev, curr :: rest =>
    if |prev.toe_elevation - curr.crest_elevation| < 2 ∧
        (prev.bench_height < 3 ∨ curr.bench_height < 3) then
      mergeFold (mergeBench prev curr) rest
    else prev :: mergeFold curr rest

/-- Dense renumbering of a bench list starting from 1. -/
def renumber (l : List BenchParams) : List BenchParams :=
  l.mapIdx (fun i b => { b with bench_number := i + 1 })

/-- Micro-bench merge of extract_parameters (applied, and renumbered, only when there is
    more than one bench, as in the source). -/
def mergeMicro : List BenchParams → List BenchParams
  | [] => []
  | [b] => [b]
  | b :: c :: rest => renumber (mergeFold b (c :: rest))

/-- Sort by descending crest elevation; models list.sort(key crest_elevation,
    reverse=True). Python sorting is stable; ties may be ordered differently by
    insertionSort, and no claim below depends on the relative order of benches with
    equal crest elevation. -/
def sortByCrestDesc (l : List BenchParams) : List BenchParams :=
  List.insertionSort (fun a b => b.crest_elevation ≤ a.crest_elevation) l

/-- A bench with its berm width replaced and the 15..42 ramp test applied (the flag is
    only ever set, never cleared, as in the source). -/
def setBermRamp (b : BenchParams) (w : ℚ) : BenchParams :=
  { b with
    berm_width := w,
    is_ramp := if 15 ≤ w ∧ w ≤ 42 then true else b.is_ramp }

/-- Berm-width assignment over consecutive sorted benches, with the 15..42 ramp test. -/
def assignBerms : List BenchParams → List BenchParams
  | [] => []
  | [b] => [b]
  | b :: b2 :: rest =>
    setBermRamp b (|b.toe_distance - b2.crest_distance|) :: assignBerms (b2 :: rest)

/-- The group-splitting loop of the large-berm filter: a berm width exceeding maxw is
    zeroed and closes the current group. -/
def groupGo (maxw : ℚ) : List BenchParams → BenchParams → List BenchParams →
    List (List BenchParams)
  | acc, b, [] => [acc ++ [b]]
  | acc, b, x :: xs =>
    if maxw < b.berm_width then
      (acc ++ [{ b with berm_width := 0 }]) :: groupGo maxw [] x xs
    else groupGo maxw (acc ++ [b]) x xs

/-- First group of maximal length; models max(valid_groups, key=len), which returns the
    first maximum. -/
def firstLongest : List (List BenchParams) → List BenchParams
  | [] => []
  | g :: gs => gs.foldl (fun best x => if best.length < x.length then x else best) g

/-- The large-berm outlier filter of extract_parameters (keep the first largest
    contiguous group), followed by renumbering. -/
def groupFilter (maxw : ℚ) : List BenchParams → List BenchParams
  | [] => []
  | b :: rest => renumber (firstLongest (groupGo maxw [] b rest))

/-- Trailing-berm detection on the raw profile after the last bench toe. The end-to-end
    slope of the tail is abs(degrees(arctan2(|de|, |dd|))), modelled through ang. -/
def trailingBerm (ang : ℚ → ℚ → ℚ) (distances elevations : List ℚ) (berm_threshold : ℚ)
    (l : List BenchParams) : List BenchParams :=
  match l.getLast? with
  | none => l
  | some lb =>
    let incr := distances.getD 0 0 < distances.getD (distances.length - 1) 0
    let after := (distances.zip elevations).filter (fun p =>
      if incr then decide (lb.toe_distance + 1/10 < p.1) else decide (p.1 < lb.toe_distance - 1/10))
    if 1 < after.length then
      let dFirst := (after.getD 0 (0, 0)).1
      let dLast := (after.getD (after.length - 1) (0, 0)).1
      let eFirst := (after.getD 0 (0, 0)).2
      let eLast := (after.getD (after.length - 1) (0, 0)).2
      if ang (|eLast - eFirst|) (|dLast - dFirst|) ≤ berm_threshold then
        l.dropLast ++ [setBermRamp lb (|dLast - dFirst|)]
      else l
    else l

/-- Angle of one simplified segment: the angle model applied to (dy, dx) when the
    segment has positive length (squared length above the 1e-8 degeneracy guard),
    0 otherwise. -/
def segAngle (ang : ℚ → ℚ → ℚ) (p : ℚ × ℚ) : ℚ :=
  if (1/100000000 : ℚ) < p.1 ^ 2 + p.2 ^ 2 then ang p.2 p.1 else 0

def benchesFromAngles (ang : ℚ → ℚ → ℚ) (distances elevations : List ℚ)
    (face_threshold berm_threshold max_berm_width : ℚ)
    (simplified : List (ℚ × ℚ)) (angles segLens : List ℚ) : List BenchParams :=
  let smoothed := smooth3 angles
  let steep := smoothed.map (fun a => decide (face_threshold ≤ a))
  let crests := (if steep.getD 0 false then [0] else []) ++ risingIndices steep
  let toes := fallingIndices steep ++
    (if steep.getLastD false then [simplified.length - 1] else [])
  let cand := buildCandidates simplified angles segLens face_threshold crests toes 0
  let merged := mergeMicro cand
  let sorted := renumber (sortByCrestDesc merged)
  let withBerms := assignBerms sorted
  let filtered :=
    if 0 < max_berm_width ∧ 1 < withBerms.length then groupFilter max_berm_width withBerms
    else withBerms
  trailingBerm ang distances elevations berm_threshold filtered

/-- Slope-Transition parameter extraction; models extract_parameters of
    src/core/param_extractor.py. The argument ang models the mapping
    fun dy dx => abs (np.degrees (np.arctan2 dy dx)) and sqrtq models np.sqrt; see the
    module docstring. The validity test on segment lengths (length greater than 1e-4)
    and the minimum face length test (1.5) are embedded in squared form; the minimum
    epsilon of 0.05 is the rational 1/20. -/
def extract_parameters (ang : ℚ → ℚ → ℚ) (sqrtq : ℚ → ℚ) (distances elevations : List ℚ)
    (section_name sector : String) (resolution face_threshold berm_threshold
    max_berm_width : ℚ) : ExtractionResult :=
  let empty : ExtractionResult := { section_name := section_name, sector := sector }
  if distances.length < 3 then empty
  else
    let points := distances.zip elevations
    let epsilon := max (resolution / 2) (1/20)
    let simplified := ramer_douglas_peucker points epsilon
    if simplified.length < 3 then empty
    else
      let dSimp := simplified.map Prod.fst
      let eSimp := simplified.map Prod.snd
      let dxs := diffs dSimp
      let dys := diffs eSimp
      let segLenSqs := (dxs.zip dys).map (fun p => p.1 ^ 2 + p.2 ^ 2)
      let segLens := segLenSqs.map sqrtq
      if ¬ (segLenSqs.any (fun q => decide ((1/100000000 : ℚ) < q))) then empty
      else
        let angles := (dxs.zip dys).map (segAngle ang)
        let final := benchesFromAngles ang distances elevations face_threshold
          berm_threshold max_berm_width simplified angles segLens
        if 2 ≤ final.length then
          let top := final.getD 0 defaultBench
          let bot := final.getD (final.length - 1) defaultBench
          let dxT := |top.crest_distance - bot.toe_distance|
          let oa := if 1/1000 < dxT then ang (|top.crest_elevation - bot.toe_elevation|) dxT else 0
          { empty with benches := final, overall_angle := oa, inter_ramp_angle := oa }
        else if final.length = 1 then
          let fa := (final.getD 0 defaultBench).face_angle
          { empty with benches := final, overall_angle := fa, inter_ramp_angle := fa }
        else
          { empty with benches := final }

/-- Exact value of fun dy dx => abs (np.degrees (np.arctan2 dy dx)) on axis-aligned
    arguments: 0 when dy = 0 and dx is positive or both are zero, 90 when dx = 0 and
    dy is nonzero, 180 when dy = 0 and dx is negative. The concrete profiles evaluated
    below consist solely of axis-aligned segments and never reach the trailing-slope
    test, so this function takes the exact value of the source computation at every
    argument it is applied to there; the fallback 45 for mixed arguments is never
    reached by those inputs. -/
def angAxis (dy dx : ℚ) : ℚ :=
  if dx = 0 then (if dy = 0 then 0 else 90)
  else if dy = 0 then (if 0 < dx then 0 else 180)
  else 45

/-- Tolerance pair (negative and positive bounds) of one parameter. -/
structure Tolerance where
  neg : ℚ
  pos : ℚ
deriving DecidableEq, Repr

/-- Tolerance configuration of compare_design_vs_asbuilt: bounds for bench_height and
    face_angle and the minimum berm width (the source reads the latter with
    tolerances of berm_width .get(min, 0.0), so berm_min carries that value). -/
structure Tolerances where
  bench_height : Tolerance
  face_angle : Tolerance
  berm_min : ℚ
deriving DecidableEq, Repr

/-- Tripartite compliance evaluation; models _evaluate_status of
    src/core/param_extractor.py (limit * 1.5 is limit * 3/2 here). -/
def _evaluate_status (deviation tol_neg tol_pos : ℚ) : String :=
  let limit := if deviation < 0 then tol_neg else tol_pos
  if |deviation| ≤ limit then "CUMPLE"
  else if |deviation| ≤ limit * (3/2) then "FUERA DE TOLERANCIA"
  else "NO CUMPLE"

/-- Floor of a rational, written with euclidean integer division of the numerator by
    the denominator (Rat.floor_def proves this equal to the mathematical floor). -/
def ratFloor (x : ℚ) : ℤ := x.num / x.den

theorem ratFloor_eq_floor (x : ℚ) : ratFloor x = ⌊x⌋ := Rat.floor_def.symm

/-- Round to the nearest integer with ties to even; models the rounding of Python
    float formatting and round() applied to exactly represented values. -/
def roundHalfEven (x : ℚ) : ℤ :=
  if x - ratFloor x < 1/2 then ratFloor x
  else if 1/2 < x - ratFloor x then ratFloor x + 1
  else if ratFloor x % 2 = 0 then ratFloor x else ratFloor x + 1

/-- Round to two decimal places with ties to even; models Python round(x, 2). -/
def round2 (x : ℚ) : ℚ := (roundHalfEven (x * 100) : ℚ) / 100

/-- Round to one decimal place with ties to even; models Python round(x, 1). -/
def round1 (x : ℚ) : ℚ := (roundHalfEven (x * 10) : ℚ) / 10

/-- One comparison record, mirroring the dict emitted by compare_design_vs_asbuilt.
    The Python key named type is rtype here and section is section2 (both are reserved
    words); level carries the integer printed by the .0f format (toe elevation rounded
    with ties to even). -/
structure ComparisonRecord where
  sector : String
  section2 : String
  bench_num : ℕ
  rtype : String
  level : ℤ
  height_design : Option ℚ
  height_real : Option ℚ
  height_dev : Option ℚ
  height_status : String
  angle_design : Option ℚ
  angle_real : Option ℚ
  angle_dev : Option ℚ
  angle_status : String
  berm_design : Option ℚ
  berm_real : Option ℚ
  berm_min : Option ℚ
  berm_status : String
  delta_crest : Option ℚ
  delta_toe : Option ℚ
  bench_design : Option BenchParams
  bench_real : Option BenchParams
deriving DecidableEq, Repr

/-- Assignment cost of one design bench against one as-built bench: absolute difference
    of the crest/toe midpoint elevations. -/
def benchCost (bd bt : BenchParams) : ℚ :=
  |(bd.crest_elevation + bd.toe_elevation) / 2 - (bt.crest_elevation + bt.toe_elevation) / 2|

/-- Row-major list of all index pairs of an n by m cost matrix. -/
def indexGrid (n m : ℕ) : List (ℕ × ℕ) :=
  (List.range n).flatMap (fun i => (List.range m).map (fun j => (i, j)))

/-- A candidate assignment: min n m index pairs with pairwise distinct rows and
    pairwise distinct columns. -/
def isAssignment (n m : ℕ) (s : List (ℕ × ℕ)) : Bool :=
  decide (s.length = min n m) && decide ((s.map Prod.fst).Nodup)
    && decide ((s.map Prod.snd).Nodup)

/-- All candidate assignments, as sublists of the row-major grid. Every one-to-one
    assignment of min n m pairs is a sublist of the grid up to reordering of its pairs,
    and the total cost does not depend on the order, so the argmin over this list
    models scipy.optimize.linear_sum_assignment (see the module docstring). -/
def allAssignments (n m : ℕ) : List (List (ℕ × ℕ)) :=
  (indexGrid n m).sublists.filter (isAssignment n m)

/-- Total cost of a list of index pairs. -/
def totalCost (bd bt : List BenchParams) (s : List (ℕ × ℕ)) : ℚ :=
  (s.map (fun p => benchCost (bd.getD p.1 defaultBench) (bt.getD p.2 defaultBench))).sum

/-- The solved assignment: a minimum-total-cost candidate. -/
def optAssignment (bd bt : List BenchParams) : List (ℕ × ℕ) :=
  ((allAssignments bd.length bt.length).argmin (totalCost bd bt)).getD []

/-- The accepted matches: assigned pairs whose cost is below the 8.0 threshold. -/
def acceptedPairs (bd bt : List BenchParams) : List (ℕ × ℕ) :=
  (optAssignment bd bt).filter
    (fun p => decide (benchCost (bd.getD p.1 defaultBench) (bt.getD p.2 defaultBench) < 8))

/-- The MATCH record of one accepted design/as-built pair. -/
def mkMatchRecord (pd : ExtractionResult) (tol : Tolerances) (bd bt : BenchParams) :
    ComparisonRecord :=
  let height_dev := bt.bench_height - bd.bench_height
  let angle_dev := bt.face_angle - bd.face_angle
  let base_status :=
    if bt.berm_width = 0 ∧ bd.berm_width = 0 then "CUMPLE"
    else if tol.berm_min ≤ bt.berm_width then "CUMPLE"
    else if tol.berm_min * (4/5) ≤ bt.berm_width then "FUERA DE TOLERANCIA"
    else "NO CUMPLE"
  let berm_status :=
    if bt.is_ramp then
      if bd.is_ramp ∨ 15 < bd.berm_width then
        if |bt.berm_width - bd.berm_width| < 3 then "RAMPA OK" else "RAMPA (Desv. Ancho)"
      else "RAMPA DETECTADA"
    else if bd.is_ramp then "FALTA RAMPA"
    else base_status
  { sector := pd.sector, section2 := pd.section_name, bench_num := bd.bench_number,
    rtype := "MATCH", level := roundHalfEven bd.toe_elevation,
    height_design := some (round2 bd.bench_height), height_real := some (round2 bt.bench_height),
    height_dev := some (round2 height_dev),
    height_status := _evaluate_status height_dev tol.bench_height.neg tol.bench_height.pos,
    angle_design := some (round1 bd.face_angle), angle_real := some (round1 bt.face_angle),
    angle_dev := some (round1 angle_dev),
    angle_status := _evaluate_status angle_dev tol.face_angle.neg tol.face_angle.pos,
    berm_design := some (round2 bd.berm_width), berm_real := some (round2 bt.berm_width),
    berm_min := some tol.berm_min, berm_status := berm_status,
    delta_crest := some (round2 (bt.crest_distance - bd.crest_distance)),
    delta_toe := some (round2 (bt.toe_distance - bd.toe_distance)),
    bench_design := some bd, bench_real := some bt }

/-- The MISSING record of an unmatched design bench. -/
def mkMissingRecord (pd : ExtractionResult) (bd : BenchParams) : ComparisonRecord :=
  { sector := pd.sector, section2 := pd.section_name, bench_num := bd.bench_number,
    rtype := "MISSING", level := roundHalfEven bd.toe_elevation,
    height_design := some (round2 bd.bench_height), height_real := none, height_dev := none,
    height_status := "NO CONSTRUIDO",
    angle_design := some (round1 bd.face_angle), angle_real := none, angle_dev := none,
    angle_status := "-",
    berm_design := some (round2 bd.berm_width), berm_real := none, berm_min := none,
    berm_status := "FALTA BANCO", delta_crest := none, delta_toe := none,
    bench_design := some bd, bench_real := none }

/-- The EXTRA record of an unmatched as-built bench (bench_num is the 999 sentinel). -/
def mkExtraRecord (pd : ExtractionResult) (bt : BenchParams) : ComparisonRecord :=
  { sector := pd.sector, section2 := pd.section_name, bench_num := 999,
    rtype := "EXTRA", level := roundHalfEven bt.toe_elevation,
    height_design := none, height_real := some (round2 bt.bench_height), height_dev := none,
    height_status := "EXTRA",
    angle_design := none, angle_real := some (round1 bt.face_angle), angle_dev := none,
    angle_status := "-",
    berm_design := none, berm_real := some (round2 bt.berm_width), berm_min := none,
    berm_status := "BANCO ADICIONAL", delta_crest := none, delta_toe := none,
    bench_design := none, bench_real := some bt }

/-- Sort key of the final ordering: the float value of the level string when it is all
    digits, else 0. A .0f formatted string is all digits exactly when the level is
    nonnegative (a negative value prints a leading minus sign, which fails isdigit),
    so the key is the level clamped from below by 0. -/
def levelKey (r : ComparisonRecord) : ℤ := if r.level < 0 then 0 else r.level

/-- The MATCH records of the accepted pairs, in assignment order. -/
def matchRecords (pd pt : ExtractionResult) (tol : Tolerances) : List ComparisonRecord :=
  (acceptedPairs pd.benches pt.benches).map (fun p =>
    mkMatchRecord pd tol (pd.benches.getD p.1 defaultBench) (pt.benches.getD p.2 defaultBench))

/-- The MISSING records of the design benches left unmatched, in index order. -/
def missingRecords (pd pt : ExtractionResult) : List ComparisonRecord :=
  ((List.range pd.benches.length).filter
    (fun i => decide (i ∉ (acceptedPairs pd.benches pt.benches).map Prod.fst))).map
    (fun i => mkMissingRecord pd (pd.benches.getD i defaultBench))

/-- The EXTRA records of the as-built benches left unmatched, in index order. -/
def extraRecords (pd pt : ExtractionResult) : List ComparisonRecord :=
  ((List.range pt.benches.length).filter
    (fun j => decide (j ∉ (acceptedPairs pd.benches pt.benches).map Prod.snd))).map
    (fun j => mkExtraRecord pd (pt.benches.getD j defaultBench))

/-- Design versus as-built comparison; models compare_design_vs_asbuilt of
    src/core/param_extractor.py, with the assignment solver modelled by optAssignment.
    The final ordering sorts by descending levelKey; Python sorting is stable while
    insertionSort may order records with equal keys differently, and no claim below
    depends on the relative order of equal-key records. -/
def compare_design_vs_asbuilt (pd pt : ExtractionResult) (tol : Tolerances) :
    List ComparisonRecord :=
  if pd.benches.length = 0 ∧ pt.benches.length = 0 then []
  else
    List.insertionSort (fun a b => levelKey b ≤ levelKey a)
      (matchRecords pd pt tol ++ missingRecords pd pt ++ extraRecords pd pt)

/-- A partial per-bench position override, mirroring the JSON dict consumed by the PUT
    reconciled endpoint; an absent key is none. -/
structure BenchUpdate where
  crest_distance : Option ℚ := none
  crest_elevation : Option ℚ := none
  toe_distance : Option ℚ := none
  toe_elevation : Option ℚ := none
deriving DecidableEq, Repr

/-- One override application of update_reconciled in src/api/main.py: positions are
    overwritten where present, then bench_height and face_angle are recomputed
    (face_angle is 90 when the horizontal offset dx satisfies abs dx at most 0.01,
    otherwise abs (degrees (arctan2 dz (abs dx))), that is ang dz (abs dx)). -/
def applyUpdate (ang : ℚ → ℚ → ℚ) (b : BenchParams) (u : BenchUpdate) : BenchParams :=
  let b1 := { b with
    crest_distance := u.crest_distance.getD b.crest_distance,
    crest_elevation := u.crest_elevation.getD b.crest_elevation,
    toe_distance := u.toe_distance.getD b.toe_distance,
    toe_elevation := u.toe_elevation.getD b.toe_elevation }
  let dx := b1.toe_distance - b1.crest_distance
  let dz := b1.crest_elevation - b1.toe_elevation
  { b1 with
    bench_height := |b1.crest_elevation - b1.toe_elevation|,
    face_angle := if 1/100 < |dx| then ang dz (|dx|) else 90 }

/-- A bench with its berm width replaced. -/
def setBerm (b : BenchParams) (w : ℚ) : BenchParams := { b with berm_width := w }

/-- Berm recompute of update_reconciled: every consecutive pair gets the width
    abs(next crest distance - current toe distance); the last bench keeps its berm. -/
def recomputeBerms : List BenchParams → List BenchParams
  | [] => []
  | [b] => [b]
  | a :: b :: rest =>
    setBerm a (|b.crest_distance - a.toe_distance|) :: recomputeBerms (b :: rest)

/-- The override applied at one position: benches beyond the override list are left
    untouched. -/
def applyAt (ang : ℚ → ℚ → ℚ) (updates : List BenchUpdate) (i : ℕ) (b : BenchParams) :
    BenchParams :=
  match updates[i]? with
  | some u => applyUpdate ang b u
  | none => b

/-- The bench-list transformation of the update_reconciled endpoint of src/api/main.py:
    overrides are applied positionally (updates beyond the bench count are ignored and
    benches beyond the update count are left untouched), then every consecutive berm
    width is recomputed. Simplification and classification are not re-run. -/
def update_reconciled (ang : ℚ → ℚ → ℚ) (benches : List BenchParams)
    (updates : List BenchUpdate) : List BenchParams :=
  recomputeBerms (benches.mapIdx (applyAt ang updates))

theorem rdp_of_lt_three {points : List (ℚ × ℚ)} (epsilon : ℚ) (h : points.length < 3) :
    ramer_douglas_peucker points epsilon = points := by
  rw [ramer_douglas_peucker]
  rw [if_pos h]

theorem rdp_of_split {points : List (ℚ × ℚ)} (epsilon : ℚ) (h : ¬ points.length < 3)
    (hc : epsilon < 0 ∨ epsilon ^ 2 * rdpScale points < rdpDmaxSq points) :
    ramer_douglas_peucker points epsilon =
      (ramer_douglas_peucker (points.take (rdpIndex points + 1)) epsilon).dropLast ++
        ramer_douglas_peucker (points.drop (rdpIndex points)) epsilon := by
  rw [ramer_douglas_peucker]
  rw [if_neg h, if_pos hc]

theorem rdp_of_flat {points : List (ℚ × ℚ)} (epsilon : ℚ) (h : ¬ points.length < 3)
    (hc : ¬ (epsilon < 0 ∨ epsilon ^ 2 * rdpScale points < rdpDmaxSq points)) :
    ramer_douglas_peucker points epsilon =
      [points.getD 0 (0, 0), points.getD (points.length - 1) (0, 0)] := by
  rw [ramer_douglas_peucker]
  rw [if_neg h, if_neg hc]

theorem rdp_two_le_length (points : List (ℚ × ℚ)) (epsilon : ℚ) (h2 : 2 ≤ points.length) :
    2 ≤ (ramer_douglas_peucker points epsilon).length := by
  by_cases h : points.length < 3
  · rw [rdp_of_lt_three epsilon h]
    exact h2
  · by_cases hc : epsilon < 0 ∨ epsilon ^ 2 * rdpScale points < rdpDmaxSq points
    · have hb := rdpIndex_bounds points (by omega)
      rw [rdp_of_split epsilon h hc]
      have ih2 := rdp_two_le_length (points.drop (rdpIndex points)) epsilon
        (by simp only [List.length_drop]; omega)
      simp only [List.length_append]
      omega
    · rw [rdp_of_flat epsilon h hc]
      simp
termination_by points.length
decreasing_by
  simp only [List.length_drop]
  have hb := rdpIndex_bounds points (by omega)
  omega

theorem rdp_head? (points : List (ℚ × ℚ)) (epsilon : ℚ) :
    (ramer_douglas_peucker points epsilon).head? = points.head? := by
  by_cases h : points.length < 3
  · rw [rdp_of_lt_three epsilon h]
  · by_cases hc : epsilon < 0 ∨ epsilon ^ 2 * rdpScale points < rdpDmaxSq points
    · have hb := rdpIndex_bounds points (by omega)
      rw [rdp_of_split epsilon h hc]
      have ihL := rdp_head? (points.take (rdpIndex points + 1)) epsilon
      have hL2 : 2 ≤ (ramer_douglas_peucker (points.take (rdpIndex points + 1)) epsilon).length :=
        rdp_two_le_length _ _ (by simp only [List.length_take]; omega)
      rw [List.head?_append, List.head?_dropLast, if_pos (by omega), ihL, List.head?_take,
        if_neg (by omega)]
      match points, h with
      | p :: rest, _ => simp
    · rw [rdp_of_flat epsilon h hc]
      match points, h with
      | p :: rest, _ => simp
termination_by points.length
decreasing_by
  simp only [List.length_take]
  have hb := rdpIndex_bounds points (by omega)
  omega

theorem rdp_getLast? (points : List (ℚ × ℚ)) (epsilon : ℚ) :
    (ramer_douglas_peucker points epsilon).getLast? = points.getLast? := by
  by_cases h : points.length < 3
  · rw [rdp_of_lt_three epsilon h]
  · by_cases hc : epsilon < 0 ∨ epsilon ^ 2 * rdpScale points < rdpDmaxSq points
    · have hb := rdpIndex_bounds points (by omega)
      rw [rdp_of_split epsilon h hc]
      have ihR := rdp_getLast? (points.drop (rdpIndex points)) epsilon
      have hR2 : 2 ≤ (ramer_douglas_peucker (points.drop (rdpIndex points)) epsilon).length :=
        rdp_two_le_length _ _ (by simp only [List.length_drop]; omega)
      rw [List.getLast?_append, ihR, List.getLast?_drop, if_neg (by omega)]
      have hne : points.getLast? ≠ none := by
        intro hnone
        rw [List.getLast?_eq_none_iff] at hnone
        rw [hnone] at h
        simp at h
      match hlast : points.getLast? with
      | none => exact absurd hlast hne
      | some a => rfl
    · rw [rdp_of_flat epsilon h hc]
      have h1 : points.getLast? = some (points.getD (points.length - 1) (0, 0)) := by
        rw [List.getLast?_eq_getElem?, List.getD_eq_getElem?_getD]
        have : points.length - 1 < points.length := by omega
        rw [List.getElem?_eq_getElem this]
        rfl
      rw [h1]
      rfl
termination_by points.length
decreasing_by
  simp only [List.length_drop]
  have hb := rdpIndex_bounds points (by omega)
  omega

/-- C5: for every input polyline and tolerance, the simplifier output contains the first
    and the last input point, and an input with fewer than 3 points is returned
    unchanged. -/
theorem claim_C5_endpoints (points : List (ℚ × ℚ)) (epsilon : ℚ) :
    (∀ x, points.head? = some x → x ∈ ramer_douglas_peucker points epsilon) ∧
    (∀ x, points.getLast? = some x → x ∈ ramer_douglas_peucker points epsilon) ∧
    (points.length < 3 → ramer_douglas_peucker points epsilon = points) := by
  refine ⟨fun x hx => ?_, fun x hx => ?_, fun h => rdp_of_lt_three epsilon h⟩
  · exact List.mem_of_mem_head? (by rw [rdp_head?]; exact hx)
  · have := rdp_getLast? points epsilon
    rw [← this] at hx
    exact List.mem_of_mem_getLast? hx

/-- Witness: on the concrete 3-point profile the endpoints (0, 0) and (2, 0) are kept,
    and a 2-point profile is returned unchanged. -/
theorem claim_C5_endpoints_witness :
    ((0 : ℚ), (0 : ℚ)) ∈ ramer_douglas_peucker [((0 : ℚ), (0 : ℚ)), (1, 5), (2, 0)] (1/4) ∧
    ((2 : ℚ), (0 : ℚ)) ∈ ramer_douglas_peucker [((0 : ℚ), (0 : ℚ)), (1, 5), (2, 0)] (1/4) ∧
    ramer_douglas_peucker [((0 : ℚ), (0 : ℚ)), (1, 5)] (1/4) = [((0 : ℚ), (0 : ℚ)), (1, 5)] :=
  ⟨(claim_C5_endpoints [((0 : ℚ), (0 : ℚ)), (1, 5), (2, 0)] (1/4)).1 (0, 0) rfl,
   (claim_C5_endpoints [((0 : ℚ), (0 : ℚ)), (1, 5), (2, 0)] (1/4)).2.1 (2, 0) (by decide),
   (claim_C5_endpoints [((0 : ℚ), (0 : ℚ)), (1, 5)] (1/4)).2.2 (by decide)⟩

theorem mem_compare (pd pt : ExtractionResult) (tol : Tolerances) (rec : ComparisonRecord) :
    rec ∈ compare_design_vs_asbuilt pd pt tol ↔
      rec ∈ matchRecords pd pt tol ∨ rec ∈ missingRecords pd pt ∨ rec ∈ extraRecords pd pt := by
  unfold compare_design_vs_asbuilt
  by_cases h : pd.benches.length = 0 ∧ pt.benches.length = 0
  · rw [if_pos h]
    obtain ⟨h1, h2⟩ := h
    have hbd : pd.benches = [] := List.length_eq_zero.mp h1
    have hbt : pt.benches = [] := List.length_eq_zero.mp h2
    have hacc : acceptedPairs ([] : List BenchParams) ([] : List BenchParams) = [] := rfl
    simp [matchRecords, missingRecords, extraRecords, hbd, hbt, hacc]
  · rw [if_neg h]
    rw [(List.perm_insertionSort _ _).mem_iff]
    simp [List.mem_append, or_assoc]

/-- Design bench fixture of the concrete witnesses below. -/
def benchW1 : BenchParams :=
  { bench_number := 1, crest_elevation := 100, crest_distance := 0, toe_elevation := 90,
    toe_distance := 5, bench_height := 10, face_angle := 70, berm_width := 25, is_ramp := true }

/-- As-built bench fixture of the concrete witnesses below. -/
def benchW2 : BenchParams :=
  { bench_number := 1, crest_elevation := 99, crest_distance := 1, toe_elevation := 89,
    toe_distance := 6, bench_height := 10, face_angle := 72, berm_width := 24, is_ramp := true }

/-- Tolerance fixture of the concrete witnesses below. -/
def tolW : Tolerances :=
  { bench_height := { neg := 1, pos := 1 }, face_angle := { neg := 5, pos := 5 }, berm_min := 5 }

/-- Design-side extraction fixture. -/
def pdW : ExtractionResult := { section_name := "S1", sector := "A", benches := [benchW1] }

/-- As-built-side extraction fixture. -/
def ptW : ExtractionResult := { section_name := "S1", sector := "A", benches := [benchW2] }

/-- Distances of a concrete zigzag profile (three 20-unit faces separated by 20-unit
    berms, the last face overshooting): all segments axis-aligned, so angAxis computes
    the exact source angles on it. -/
def zigD : List ℚ := [0, -10, -10, 10, 10, -10, -10, 10, 10, -30]

/-- Elevations of the concrete zigzag profile. -/
def zigE : List ℚ := [100, 100, 80, 80, 60, 60, 40, 40, 20, 20]

/-- The first bench that extract_parameters finds on the zigzag profile with
    max_berm_width 50. -/
def benchZ : BenchParams :=
  { bench_number := 1, crest_elevation := 100, crest_distance := 0, toe_elevation := 80,
    toe_distance := -10, bench_height := 20, face_angle := 120, berm_width := 20,
    is_ramp := true }

/-- The single bench that extract_parameters finds on the zigzag profile with
    max_berm_width 16: the group filter has zeroed its berm width while leaving its
    ramp flag set. -/
def benchZ16 : BenchParams :=
  { bench_number := 1, crest_elevation := 100, crest_distance := 0, toe_elevation := 80,
    toe_distance := -10, bench_height := 20, face_angle := 120, berm_width := 0,
    is_ramp := true }

/-- C2: the status function uses limit tol_neg for negative deviations and tol_pos
    otherwise, returns CUMPLE when the absolute deviation is within the limit, FUERA DE
    TOLERANCIA when within 1.5 times the limit, NO CUMPLE beyond; and every MATCH
    record of compare_design_vs_asbuilt carries exactly this function applied to
    height_dev = real height - design height and angle_dev = real angle - design
    angle of its stored bench pair. -/
theorem claim_C2_evaluate_status :
    (∀ d tn tp : ℚ,
      _evaluate_status d tn tp =
        if |d| ≤ (if d < 0 then tn else tp) then "CUMPLE"
        else if |d| ≤ (3/2) * (if d < 0 then tn else tp) then "FUERA DE TOLERANCIA"
        else "NO CUMPLE") ∧
    (∀ (pd pt : ExtractionResult) (tol : Tolerances) (rec : ComparisonRecord),
      rec ∈ compare_design_vs_asbuilt pd pt tol → rec.rtype = "MATCH" →
      ∀ bd bt : BenchParams, rec.bench_design = some bd → rec.bench_real = some bt →
        rec.height_status = _evaluate_status (bt.bench_height - bd.bench_height)
          tol.bench_height.neg tol.bench_height.pos ∧
        rec.angle_status = _evaluate_status (bt.face_angle - bd.face_angle)
          tol.face_angle.neg tol.face_angle.pos) := by
  constructor
  · intro d tn tp
    unfold _evaluate_status
    have h32 : ∀ q : ℚ, q * (3/2) = (3/2) * q := fun q => by ring
    simp only [h32]
  · intro pd pt tol rec hmem hty bd bt hbd hbt
    rcases (mem_compare pd pt tol rec).mp hmem with h | h | h
    · obtain ⟨p, hp, hrec⟩ := List.mem_map.mp h
      subst hrec
      have hbd' : pd.benches.getD p.1 defaultBench = bd := by
        have : (mkMatchRecord pd tol (pd.benches.getD p.1 defaultBench)
            (pt.benches.getD p.2 defaultBench)).bench_design =
            some (pd.benches.getD p.1 defaultBench) := rfl
        rw [this] at hbd
        exact Option.some.inj hbd
      have hbt' : pt.benches.getD p.2 defaultBench = bt := by
        have : (mkMatchRecord pd tol (pd.benches.getD p.1 defaultBench)
            (pt.benches.getD p.2 defaultBench)).bench_real =
            some (pt.benches.getD p.2 defaultBench) := rfl
        rw [this] at hbt
        exact Option.some.inj hbt
      rw [← hbd', ← hbt']
      exact ⟨rfl, rfl⟩
    · obtain ⟨i, hi, hrec⟩ := List.mem_map.mp h
      subst hrec
      exact absurd hty (by simp [mkMissingRecord])
    · obtain ⟨j, hj, hrec⟩ := List.mem_map.mp h
      subst hrec
      exact absurd hty (by simp [mkExtraRecord])

/-- Witness: the concrete one-bench comparison produces the MATCH record, whose height
    and angle statuses are the status function applied to the stored deviations. -/
theorem claim_C2_evaluate_status_witness :
    mkMatchRecord pdW tolW benchW1 benchW2 ∈ compare_design_vs_asbuilt pdW ptW tolW ∧
    (mkMatchRecord pdW tolW benchW1 benchW2).rtype = "MATCH" ∧
    ((mkMatchRecord pdW tolW benchW1 benchW2).height_status =
      _evaluate_status (benchW2.bench_height - benchW1.bench_height) tolW.bench_height.neg
        tolW.bench_height.pos ∧
    (mkMatchRecord pdW tolW benchW1 benchW2).angle_status =
      _evaluate_status (benchW2.face_angle - benchW1.face_angle) tolW.face_angle.neg
        tolW.face_angle.pos) :=
  ⟨by with_unfolding_all decide, rfl,
   claim_C2_evaluate_status.2 pdW ptW tolW (mkMatchRecord pdW tolW benchW1 benchW2)
     (by with_unfolding_all decide) rfl benchW1 benchW2 rfl rfl⟩

theorem indexGrid_succ (n m : ℕ) :
    indexGrid (n + 1) m = indexGrid n m ++ (List.range m).map (fun j => (n, j)) := by
  unfold indexGrid
  rw [List.range_succ, List.flatMap_append]
  simp

theorem diag_sublist_grid : ∀ n m : ℕ,
    ((List.range (min n m)).map (fun i => (i, i))).Sublist (indexGrid n m)
  | 0, m => by simp
  | n + 1, m => by
    rw [indexGrid_succ]
    by_cases h : m ≤ n
    · have hmin : min (n + 1) m = min n m := by omega
      rw [hmin]
      exact (diag_sublist_grid n m).trans (List.sublist_append_left _ _)
    · have hmin : min (n + 1) m = n + 1 := by omega
      have hmin2 : min n m = n := by omega
      rw [hmin, List.range_succ, List.map_append]
      refine List.Sublist.append ?_ ?_
      · have := diag_sublist_grid n m
        rw [hmin2] at this
        exact this
      · simp only [List.map_cons, List.map_nil, List.singleton_sublist, List.mem_map,
          List.mem_range]
        exact ⟨n, by omega, rfl⟩

theorem diag_isAssignment (n m : ℕ) :
    isAssignment n m ((List.range (min n m)).map (fun i => (i, i))) = true := by
  unfold isAssignment
  simp only [Bool.and_eq_true, decide_eq_true_eq]
  refine ⟨⟨by simp, ?_⟩, ?_⟩ <;>
    · rw [List.map_map]
      simp [Function.comp_def, List.nodup_range]

theorem allAssignments_ne_nil (n m : ℕ) : allAssignments n m ≠ [] := by
  have hmem : ((List.range (min n m)).map (fun i => (i, i))) ∈ allAssignments n m := by
    unfold allAssignments
    rw [List.mem_filter]
    exact ⟨List.mem_sublists.mpr (diag_sublist_grid n m), diag_isAssignment n m⟩
  exact List.ne_nil_of_mem hmem

theorem optAssignment_mem (bd bt : List BenchParams) :
    optAssignment bd bt ∈ allAssignments bd.length bt.length := by
  unfold optAssignment
  match h : (allAssignments bd.length bt.length).argmin (totalCost bd bt) with
  | none =>
    exact absurd (List.argmin_eq_none.mp h) (allAssignments_ne_nil _ _)
  | some s =>
    simpa using List.argmin_mem h

theorem optAssignment_le (bd bt : List BenchParams) (s : List (ℕ × ℕ))
    (hs : s ∈ allAssignments bd.length bt.length) :
    totalCost bd bt (optAssignment bd bt) ≤ totalCost bd bt s := by
  unfold optAssignment
  match h : (allAssignments bd.length bt.length).argmin (totalCost bd bt) with
  | none =>
    exact absurd (List.argmin_eq_none.mp h) (allAssignments_ne_nil _ _)
  | some m =>
    simpa using List.le_of_mem_argmin hs h

theorem mem_allAssignments_props {n m : ℕ} {s : List (ℕ × ℕ)} (hs : s ∈ allAssignments n m) :
    s.length = min n m ∧ (s.map Prod.fst).Nodup ∧ (s.map Prod.snd).Nodup ∧
      s.Sublist (indexGrid n m) := by
  unfold allAssignments at hs
  rw [List.mem_filter] at hs
  obtain ⟨hsub, hass⟩ := hs
  unfold isAssignment at hass
  simp only [Bool.and_eq_true, decide_eq_true_eq] at hass
  exact ⟨hass.1.1, hass.1.2, hass.2, List.mem_sublists.mp hsub⟩

theorem optAssignment_length (bd bt : List BenchParams) :
    (optAssignment bd bt).length = min bd.length bt.length :=
  (mem_allAssignments_props (optAssignment_mem bd bt)).1

theorem acceptedPairs_sublist (bd bt : List BenchParams) :
    (acceptedPairs bd bt).Sublist (optAssignment bd bt) := by
  unfold acceptedPairs
  exact List.filter_sublist _

theorem acceptedPairs_of_empty {bd bt : List BenchParams} (h : bd.length = 0 ∨ bt.length = 0) :
    acceptedPairs bd bt = [] := by
  have hlen := optAssignment_length bd bt
  have hmin : min bd.length bt.length = 0 := by omega
  rw [hmin] at hlen
  have hopt : optAssignment bd bt = [] := List.length_eq_zero.mp hlen
  have := acceptedPairs_sublist bd bt
  rw [hopt] at this
  exact List.sublist_nil.mp this

/-- Empty-bench extraction fixture. -/
def pdE : ExtractionResult := { section_name := "S1", sector := "A", benches := [] }

/-- Counterexample to C7 as stated: with an empty design list and a nonempty as-built
    list, compare_design_vs_asbuilt does not return an empty comparison list (it emits
    an EXTRA record for the as-built bench). -/
theorem claim_C7_counterexample :
    compare_design_vs_asbuilt pdE ptW tolW ≠ [] := by
  with_unfolding_all decide

/-- C7 amended: only when both bench lists are empty is the comparison list empty; when
    exactly one side is empty no match is attempted, and every bench of the non-empty
    side yields one record, all of type EXTRA (design empty) or MISSING (as-built
    empty). -/
theorem claim_C7_empty_sides (pd pt : ExtractionResult) (tol : Tolerances) :
    (pd.benches = [] → pt.benches = [] → compare_design_vs_asbuilt pd pt tol = []) ∧
    (pd.benches = [] →
      (compare_design_vs_asbuilt pd pt tol).length = pt.benches.length ∧
      ∀ rec ∈ compare_design_vs_asbuilt pd pt tol, rec.rtype = "EXTRA") ∧
    (pt.benches = [] →
      (compare_design_vs_asbuilt pd pt tol).length = pd.benches.length ∧
      ∀ rec ∈ compare_design_vs_asbuilt pd pt tol, rec.rtype = "MISSING") := by
  refine ⟨fun h1 h2 => ?_, fun h1 => ?_, fun h2 => ?_⟩
  · unfold compare_design_vs_asbuilt
    rw [if_pos (by simp [h1, h2])]
  · have hacc : acceptedPairs pd.benches pt.benches = [] :=
      acceptedPairs_of_empty (Or.inl (by simp [h1]))
    have hmatch : matchRecords pd pt tol = [] := by
      unfold matchRecords
      rw [hacc]
      rfl
    have hmiss : missingRecords pd pt = [] := by
      unfold missingRecords
      rw [h1]
      rfl
    have hextra : extraRecords pd pt =
        (List.range pt.benches.length).map (fun j => mkExtraRecord pd (pt.benches.getD j defaultBench)) := by
      unfold extraRecords
      rw [hacc]
      simp
    constructor
    · by_cases hz : pd.benches.length = 0 ∧ pt.benches.length = 0
      · unfold compare_design_vs_asbuilt
        rw [if_pos hz]
        simp [hz.2]
      · unfold compare_design_vs_asbuilt
        rw [if_neg hz]
        rw [(List.perm_insertionSort _ _).length_eq]
        rw [hmatch, hmiss, hextra]
        simp
    · intro rec hrec
      rcases (mem_compare pd pt tol rec).mp hrec with h | h | h
      · rw [hmatch] at h
        exact absurd h (List.not_mem_nil rec)
      · rw [hmiss] at h
        exact absurd h (List.not_mem_nil rec)
      · obtain ⟨j, hj, hrec2⟩ := List.mem_map.mp h
        rw [← hrec2]
        rfl
  · have hacc : acceptedPairs pd.benches pt.benches = [] :=
      acceptedPairs_of_empty (Or.inr (by simp [h2]))
    have hmatch : matchRecords pd pt tol = [] := by
      unfold matchRecords
      rw [hacc]
      rfl
    have hextra : extraRecords pd pt = [] := by
      unfold extraRecords
      rw [h2]
      rfl
    have hmiss : missingRecords pd pt =
        (List.range pd.benches.length).map (fun i => mkMissingRecord pd (pd.benches.getD i defaultBench)) := by
      unfold missingRecords
      rw [hacc]
      simp
    constructor
    · by_cases hz : pd.benches.length = 0 ∧ pt.benches.length = 0
      · unfold compare_design_vs_asbuilt
        rw [if_pos hz]
        simp [hz.1]
      · unfold compare_design_vs_asbuilt
        rw [if_neg hz]
        rw [(List.perm_insertionSort _ _).length_eq]
        rw [hmatch, hmiss, hextra]
        simp
    · intro rec hrec
      rcases (mem_compare pd pt tol rec).mp hrec with h | h | h
      · rw [hmatch] at h
        exact absurd h (List.not_mem_nil rec)
      · obtain ⟨i, hi, hrec2⟩ := List.mem_map.mp h
        rw [← hrec2]
        rfl
      · rw [hextra] at h
        exact absurd h (List.not_mem_nil rec)

/-- Witness: with an empty design side and one as-built bench, the output has exactly
    one record and every record is EXTRA; with both sides empty it is empty. -/
theorem claim_C7_empty_sides_witness :
    (compare_design_vs_asbuilt pdE ptW tolW).length = ptW.benches.length ∧
    (∀ rec ∈ compare_design_vs_asbuilt pdE ptW tolW, rec.rtype = "EXTRA") ∧
    compare_design_vs_asbuilt pdE pdE tolW = [] :=
  ⟨((claim_C7_empty_sides pdE ptW tolW).2.1 rfl).1,
   ((claim_C7_empty_sides pdE ptW tolW).2.1 rfl).2,
   (claim_C7_empty_sides pdE pdE tolW).1 rfl rfl⟩

/-- C8: the list returned by compare_design_vs_asbuilt is sorted by descending numeric
    level key (a record with a negative level, whose printed string fails the isdigit
    test, sorts as 0 via levelKey), and the level of every record is its contributing
    bench toe elevation rounded to an integer (from the design bench for MATCH and
    MISSING records, from the as-built bench for EXTRA records). -/
theorem claim_C8_output_sorted (pd pt : ExtractionResult) (tol : Tolerances) :
    List.Sorted (fun a b : ComparisonRecord => levelKey b ≤ levelKey a)
      (compare_design_vs_asbuilt pd pt tol) ∧
    (∀ rec ∈ compare_design_vs_asbuilt pd pt tol,
      (∀ bd, rec.bench_design = some bd → rec.level = roundHalfEven bd.toe_elevation) ∧
      (rec.bench_design = none → ∀ bt, rec.bench_real = some bt →
        rec.level = roundHalfEven bt.toe_elevation)) := by
  constructor
  · unfold compare_design_vs_asbuilt
    split
    · exact List.sorted_nil
    · haveI hT : IsTotal ComparisonRecord (fun a b => levelKey b ≤ levelKey a) :=
        ⟨fun a b => le_total _ _⟩
      haveI hR : IsTrans ComparisonRecord (fun a b => levelKey b ≤ levelKey a) :=
        ⟨fun a b c h1 h2 => le_trans h2 h1⟩
      exact List.sorted_insertionSort _ _
  · intro rec hrec
    rcases (mem_compare pd pt tol rec).mp hrec with h | h | h
    · obtain ⟨p, hp, hrec2⟩ := List.mem_map.mp h
      subst hrec2
      constructor
      · intro bd hbd
        have hsome : (mkMatchRecord pd tol (pd.benches.getD p.1 defaultBench)
            (pt.benches.getD p.2 defaultBench)).bench_design =
            some (pd.benches.getD p.1 defaultBench) := rfl
        rw [hsome] at hbd
        rw [← Option.some.inj hbd]
        rfl
      · intro hnone
        have hsome : (mkMatchRecord pd tol (pd.benches.getD p.1 defaultBench)
            (pt.benches.getD p.2 defaultBench)).bench_design =
            some (pd.benches.getD p.1 defaultBench) := rfl
        rw [hsome] at hnone
        exact absurd hnone (by simp)
    · obtain ⟨i, hi, hrec2⟩ := List.mem_map.mp h
      subst hrec2
      constructor
      · intro bd hbd
        have hsome : (mkMissingRecord pd (pd.benches.getD i defaultBench)).bench_design =
            some (pd.benches.getD i defaultBench) := rfl
        rw [hsome] at hbd
        rw [← Option.some.inj hbd]
        rfl
      · intro hnone
        have hsome : (mkMissingRecord pd (pd.benches.getD i defaultBench)).bench_design =
            some (pd.benches.getD i defaultBench) := rfl
        rw [hsome] at hnone
        exact absurd hnone (by simp)
    · obtain ⟨j, hj, hrec2⟩ := List.mem_map.mp h
      subst hrec2
      refine ⟨fun bd hbd => ?_, fun _ bt hbt => ?_⟩
      · have hnone : (mkExtraRecord pd (pt.benches.getD j defaultBench)).bench_design =
            none := rfl
        rw [hnone] at hbd
        exact absurd hbd (by simp)
      · have hsome : (mkExtraRecord pd (pt.benches.getD j defaultBench)).bench_real =
            some (pt.benches.getD j defaultBench) := rfl
        rw [hsome] at hbt
        rw [← Option.some.inj hbt]
        rfl

/-- Witness: the concrete comparison output is sorted by descending level key, and its
    MATCH record carries the rounded design toe elevation as its level. -/
theorem claim_C8_output_sorted_witness :
    List.Sorted (fun a b : ComparisonRecord => levelKey b ≤ levelKey a)
      (compare_design_vs_asbuilt pdW ptW tolW) ∧
    (mkMatchRecord pdW tolW benchW1 benchW2).level = roundHalfEven benchW1.toe_elevation :=
  ⟨(claim_C8_output_sorted pdW ptW tolW).1,
   ((claim_C8_output_sorted pdW ptW tolW).2 (mkMatchRecord pdW tolW benchW1 benchW2)
     (by with_unfolding_all decide)).1 benchW1 rfl⟩

theorem recomputeBerms_length : ∀ l : List BenchParams, (recomputeBerms l).length = l.length
  | [] => rfl
  | [_] => rfl
  | a :: b :: rest => by
    show ((recomputeBerms (b :: rest)).length + 1) = _
    rw [recomputeBerms_length (b :: rest)]
    rfl

theorem recomputeBerms_getD : ∀ (l : List BenchParams) (i : ℕ), i < l.length →
    (recomputeBerms l).getD i defaultBench =
      (if i + 1 < l.length then
        setBerm (l.getD i defaultBench)
          (|(l.getD (i + 1) defaultBench).crest_distance -
            (l.getD i defaultBench).toe_distance|)
      else l.getD i defaultBench)
  | [], i, h => by simp at h
  | [b], i, h => by
    have : i = 0 := by simpa using Nat.lt_one_iff.mp (by simpa using h)
    subst this
    simp [recomputeBerms]
  | a :: b :: rest, 0, h => by
    simp only [recomputeBerms, List.length_cons]
    rw [if_pos (by omega)]
    rfl
  | a :: b :: rest, i + 1, h => by
    have ih := recomputeBerms_getD (b :: rest) i (by simpa using h)
    show (recomputeBerms (b :: rest)).getD i defaultBench = _
    rw [ih]
    simp only [List.length_cons] at *
    by_cases hlt : i + 1 < rest.length + 1
    · rw [if_pos hlt, if_pos (by omega)]
      rfl
    · rw [if_neg hlt, if_neg (by omega)]
      rfl

theorem mapIdx_getD (f : ℕ → BenchParams → BenchParams) (l : List BenchParams) (i : ℕ)
    (h : i < l.length) :
    (l.mapIdx f).getD i defaultBench = f i (l.getD i defaultBench) := by
  rw [List.getD_eq_getElem?_getD, List.getD_eq_getElem?_getD, List.getElem?_mapIdx,
    List.getElem?_eq_getElem h]
  rfl

/-- C9: the interactive edit operation applies the positional overrides, recomputes for
    each edited bench the height as the absolute elevation difference and the face
    angle by the atan2 rule (90 when the horizontal offset is at most 0.01), recomputes
    every consecutive-pair berm width from the updated positions, and leaves
    bench_number, is_ramp, the fields of benches beyond the override list, the berm
    width of the last bench, and the bench ordering unchanged; simplification and
    classification are not re-run. -/
theorem claim_C9_update_reconciled (ang : ℚ → ℚ → ℚ) (benches : List BenchParams)
    (updates : List BenchUpdate) (out : List BenchParams)
    (hout : out = update_reconciled ang benches updates) :
    out.length = benches.length ∧
    ∀ i, i < benches.length →
      ((out.getD i defaultBench).bench_number = (benches.getD i defaultBench).bench_number ∧
       (out.getD i defaultBench).is_ramp = (benches.getD i defaultBench).is_ramp) ∧
      (∀ u, updates[i]? = some u →
        (out.getD i defaultBench).crest_distance =
          u.crest_distance.getD (benches.getD i defaultBench).crest_distance ∧
        (out.getD i defaultBench).crest_elevation =
          u.crest_elevation.getD (benches.getD i defaultBench).crest_elevation ∧
        (out.getD i defaultBench).toe_distance =
          u.toe_distance.getD (benches.getD i defaultBench).toe_distance ∧
        (out.getD i defaultBench).toe_elevation =
          u.toe_elevation.getD (benches.getD i defaultBench).toe_elevation ∧
        (out.getD i defaultBench).bench_height =
          |(out.getD i defaultBench).crest_elevation -
            (out.getD i defaultBench).toe_elevation| ∧
        (out.getD i defaultBench).face_angle =
          (if 1/100 < |(out.getD i defaultBench).toe_distance -
              (out.getD i defaultBench).crest_distance| then
            ang ((out.getD i defaultBench).crest_elevation -
                (out.getD i defaultBench).toe_elevation)
              (|(out.getD i defaultBench).toe_distance -
                (out.getD i defaultBench).crest_distance|)
          else 90)) ∧
      (updates[i]? = none →
        out.getD i defaultBench =
          setBerm (benches.getD i defaultBench) (out.getD i defaultBench).berm_width) ∧
      (i + 1 < benches.length →
        (out.getD i defaultBench).berm_width =
          |(out.getD (i + 1) defaultBench).crest_distance -
            (out.getD i defaultBench).toe_distance|) ∧
      (i + 1 = benches.length →
        (out.getD i defaultBench).berm_width = (benches.getD i defaultBench).berm_width) := by
  subst hout
  unfold update_reconciled
  have hulen : (benches.mapIdx (applyAt ang updates)).length = benches.length :=
    List.length_mapIdx
  refine ⟨by rw [recomputeBerms_length, hulen], fun i hi => ?_⟩
  have hu_i := mapIdx_getD (applyAt ang updates) benches i hi
  have hout_i := recomputeBerms_getD _ i (by rw [hulen]; exact hi)
  rw [hulen, hu_i] at hout_i
  have happly : ∀ (b : BenchParams),
      (∀ u, updates[i]? = some u → applyAt ang updates i b = applyUpdate ang b u) ∧
      (updates[i]? = none → applyAt ang updates i b = b) := by
    intro b
    constructor
    · intro u hu
      unfold applyAt
      rw [hu]
    · intro hu
      unfold applyAt
      rw [hu]
  have hcrest_i1 : ∀ h1 : i + 1 < benches.length,
      ((recomputeBerms (benches.mapIdx (applyAt ang updates))).getD (i + 1)
        defaultBench).crest_distance =
      ((benches.mapIdx (applyAt ang updates)).getD (i + 1) defaultBench).crest_distance := by
    intro h1
    have hout_i1 := recomputeBerms_getD _ (i + 1) (by rw [hulen]; exact h1)
    rw [hout_i1]
    split
    · rfl
    · rfl
  refine ⟨?_, ?_, ?_, ?_, ?_⟩
  · rw [hout_i]
    cases hu : updates[i]? with
    | none =>
      rw [(happly _).2 hu]
      split
      · exact ⟨rfl, rfl⟩
      · exact ⟨rfl, rfl⟩
    | some u =>
      rw [(happly _).1 u hu]
      split
      · exact ⟨rfl, rfl⟩
      · exact ⟨rfl, rfl⟩
  · intro u hu
    rw [hout_i, (happly _).1 u hu]
    split
    · exact ⟨rfl, rfl, rfl, rfl, rfl, rfl⟩
    · exact ⟨rfl, rfl, rfl, rfl, rfl, rfl⟩
  · intro hu
    rw [hout_i, (happly _).2 hu]
    split
    · rfl
    · rfl
  · intro h1
    rw [if_pos h1] at hout_i
    rw [hout_i, hcrest_i1 h1]
    rfl
  · intro h1
    rw [if_neg (by omega)] at hout_i
    rw [hout_i]
    cases hu : updates[i]? with
    | none => rw [(happly _).2 hu]
    | some u =>
      rw [(happly _).1 u hu]
      rfl

/-- Override fixture of the update witness. -/
def updW : BenchUpdate := { crest_elevation := some 101, toe_distance := some 7 }

/-- Witness: on a concrete two-bench list with one override, the edit keeps the length
    and the is_ramp flag and applies the crest elevation override. -/
theorem claim_C9_update_reconciled_witness :
    (update_reconciled angAxis [benchW1, benchW2] [updW]).length = 2 ∧
    ((update_reconciled angAxis [benchW1, benchW2] [updW]).getD 0 defaultBench).is_ramp =
      benchW1.is_ramp ∧
    ((update_reconciled angAxis [benchW1, benchW2] [updW]).getD 0 defaultBench).crest_elevation =
      updW.crest_elevation.getD benchW1.crest_elevation :=
  ⟨(claim_C9_update_reconciled angAxis [benchW1, benchW2] [updW] _ rfl).1,
   ((claim_C9_update_reconciled angAxis [benchW1, benchW2] [updW] _ rfl).2 0
     (by decide)).1.2,
   (((claim_C9_update_reconciled angAxis [benchW1, benchW2] [updW] _ rfl).2 0
     (by decide)).2.1 updW rfl).2.1⟩

theorem mem_indexGrid {n m : ℕ} {p : ℕ × ℕ} : p ∈ indexGrid n m ↔ p.1 < n ∧ p.2 < m := by
  unfold indexGrid
  simp only [List.mem_flatMap, List.mem_map, List.mem_range]
  constructor
  · rintro ⟨i, hi, j, hj, rfl⟩
    exact ⟨hi, hj⟩
  · intro ⟨h1, h2⟩
    exact ⟨p.1, h1, p.2, h2, rfl⟩

theorem map_getD_range (l : List BenchParams) :
    (List.range l.length).map (fun i => l.getD i defaultBench) = l := by
  apply List.ext_getElem
  · simp
  · intro n h1 h2
    simp only [List.getElem_map, List.getElem_range]
    exact List.getD_eq_getElem l defaultBench h2

theorem nodup_cover_perm {A R : List ℕ} (hA : A.Nodup) (hR : R.Nodup)
    (hsub : ∀ a ∈ A, a ∈ R) :
    (A ++ R.filter (fun x => decide (x ∉ A))).Perm R := by
  have hfilters := List.filter_append_perm (fun x => decide (x ∈ A)) R
  have hnot : (fun x => ! decide (x ∈ A)) = (fun x => decide (x ∉ A)) := by
    funext x
    simp
  rw [hnot] at hfilters
  refine List.Perm.trans ?_ hfilters
  refine List.Perm.append_right _ ?_
  refine List.Subperm.antisymm ?_ ?_
  · refine hA.subperm ?_
    intro a ha
    rw [List.mem_filter]
    exact ⟨hsub a ha, by simpa using ha⟩
  · refine (hR.filter _).subperm ?_
    intro a ha
    rw [List.mem_filter] at ha
    simpa using ha.2

theorem acceptedPairs_rows_nodup (bd bt : List BenchParams) :
    ((acceptedPairs bd bt).map Prod.fst).Nodup :=
  List.Nodup.sublist (List.Sublist.map _ (acceptedPairs_sublist bd bt))
    (mem_allAssignments_props (optAssignment_mem bd bt)).2.1

theorem acceptedPairs_cols_nodup (bd bt : List BenchParams) :
    ((acceptedPairs bd bt).map Prod.snd).Nodup :=
  List.Nodup.sublist (List.Sublist.map _ (acceptedPairs_sublist bd bt))
    (mem_allAssignments_props (optAssignment_mem bd bt)).2.2.1

theorem acceptedPairs_mem_grid (bd bt : List BenchParams) {p : ℕ × ℕ}
    (hp : p ∈ acceptedPairs bd bt) : p.1 < bd.length ∧ p.2 < bt.length := by
  have h1 : p ∈ optAssignment bd bt := (acceptedPairs_sublist bd bt).mem hp
  have h2 := (mem_allAssignments_props (optAssignment_mem bd bt)).2.2.2.mem h1
  exact mem_indexGrid.mp h2

theorem rows_cover_perm (bd bt : List BenchParams) :
    (((acceptedPairs bd bt).map Prod.fst) ++
      (List.range bd.length).filter
        (fun i => decide (i ∉ (acceptedPairs bd bt).map Prod.fst))).Perm
      (List.range bd.length) := by
  refine nodup_cover_perm (acceptedPairs_rows_nodup bd bt) (List.nodup_range _) ?_
  intro a ha
  obtain ⟨p, hp, rfl⟩ := List.mem_map.mp ha
  rw [List.mem_range]
  exact (acceptedPairs_mem_grid bd bt hp).1

theorem cols_cover_perm (bd bt : List BenchParams) :
    (((acceptedPairs bd bt).map Prod.snd) ++
      (List.range bt.length).filter
        (fun j => decide (j ∉ (acceptedPairs bd bt).map Prod.snd))).Perm
      (List.range bt.length) := by
  refine nodup_cover_perm (acceptedPairs_cols_nodup bd bt) (List.nodup_range _) ?_
  intro a ha
  obtain ⟨p, hp, rfl⟩ := List.mem_map.mp ha
  rw [List.mem_range]
  exact (acceptedPairs_mem_grid bd bt hp).2

theorem compare_perm_concat (pd pt : ExtractionResult) (tol : Tolerances) :
    (compare_design_vs_asbuilt pd pt tol).Perm
      (matchRecords pd pt tol ++ missingRecords pd pt ++ extraRecords pd pt) := by
  unfold compare_design_vs_asbuilt
  split
  · rename_i h
    obtain ⟨h1, h2⟩ := h
    have hbd : pd.benches = [] := List.length_eq_zero.mp h1
    have hbt : pt.benches = [] := List.length_eq_zero.mp h2
    have hacc : acceptedPairs ([] : List BenchParams) ([] : List BenchParams) = [] := rfl
    simp [matchRecords, missingRecords, extraRecords, hbd, hbt, hacc]
  · exact List.perm_insertionSort _ _

theorem filterMap_design_matchRecords (pd pt : ExtractionResult) (tol : Tolerances) :
    (matchRecords pd pt tol).filterMap (fun r => r.bench_design) =
      ((acceptedPairs pd.benches pt.benches).map Prod.fst).map
        (fun i => pd.benches.getD i defaultBench) := by
  unfold matchRecords
  rw [List.filterMap_map]
  have hcomp : ((fun r : ComparisonRecord => r.bench_design) ∘ (fun p : ℕ × ℕ =>
      mkMatchRecord pd tol (pd.benches.getD p.1 defaultBench)
        (pt.benches.getD p.2 defaultBench))) =
      some ∘ ((fun i => pd.benches.getD i defaultBench) ∘ Prod.fst) := by
    funext p
    rfl
  rw [hcomp, List.filterMap_eq_map, List.map_map]

theorem filterMap_real_matchRecords (pd pt : ExtractionResult) (tol : Tolerances) :
    (matchRecords pd pt tol).filterMap (fun r => r.bench_real) =
      ((acceptedPairs pd.benches pt.benches).map Prod.snd).map
        (fun j => pt.benches.getD j defaultBench) := by
  unfold matchRecords
  rw [List.filterMap_map]
  have hcomp : ((fun r : ComparisonRecord => r.bench_real) ∘ (fun p : ℕ × ℕ =>
      mkMatchRecord pd tol (pd.benches.getD p.1 defaultBench)
        (pt.benches.getD p.2 defaultBench))) =
      some ∘ ((fun j => pt.benches.getD j defaultBench) ∘ Prod.snd) := by
    funext p
    rfl
  rw [hcomp, List.filterMap_eq_map, List.map_map]

theorem filterMap_none_eq_nil {α β : Type} (l : List α) :
    l.filterMap (fun _ => (none : Option β)) = [] := by
  induction l with
  | nil => rfl
  | cons a t ih => simpa using ih

/-- C10: the comparison output partitions the input benches: the design benches stored
    in the records (one per MATCH and one per MISSING) are a permutation of the design
    bench list, the as-built benches stored (one per MATCH and one per EXTRA) are a
    permutation of the as-built list, and the number of records is the number of
    accepted matches plus the number of unmatched design benches plus the number of
    unmatched as-built benches. -/
theorem claim_C10_partition (pd pt : ExtractionResult) (tol : Tolerances) :
    ((compare_design_vs_asbuilt pd pt tol).filterMap (fun r => r.bench_design)).Perm
      pd.benches ∧
    ((compare_design_vs_asbuilt pd pt tol).filterMap (fun r => r.bench_real)).Perm
      pt.benches ∧
    (compare_design_vs_asbuilt pd pt tol).length =
      ((compare_design_vs_asbuilt pd pt tol).filter (fun r => r.rtype == "MATCH")).length +
      (pd.benches.length -
        ((compare_design_vs_asbuilt pd pt tol).filter (fun r => r.rtype == "MATCH")).length) +
      (pt.benches.length -
        ((compare_design_vs_asbuilt pd pt tol).filter (fun r => r.rtype == "MATCH")).length) := by
  have hC := compare_perm_concat pd pt tol
  have hrows := rows_cover_perm pd.benches pt.benches
  have hcols := cols_cover_perm pd.benches pt.benches
  have hmissdes : (missingRecords pd pt).filterMap (fun r => r.bench_design) =
      ((List.range pd.benches.length).filter
        (fun i => decide (i ∉ (acceptedPairs pd.benches pt.benches).map Prod.fst))).map
        (fun i => pd.benches.getD i defaultBench) := by
    unfold missingRecords
    rw [List.filterMap_map]
    have hcomp : ((fun r : ComparisonRecord => r.bench_design) ∘ (fun i : ℕ =>
        mkMissingRecord pd (pd.benches.getD i defaultBench))) =
        some ∘ (fun i => pd.benches.getD i defaultBench) := by
      funext i
      rfl
    rw [hcomp, List.filterMap_eq_map]
  have hextrareal : (extraRecords pd pt).filterMap (fun r => r.bench_real) =
      ((List.range pt.benches.length).filter
        (fun j => decide (j ∉ (acceptedPairs pd.benches pt.benches).map Prod.snd))).map
        (fun j => pt.benches.getD j defaultBench) := by
    unfold extraRecords
    rw [List.filterMap_map]
    have hcomp : ((fun r : ComparisonRecord => r.bench_real) ∘ (fun j : ℕ =>
        mkExtraRecord pd (pt.benches.getD j defaultBench))) =
        some ∘ (fun j => pt.benches.getD j defaultBench) := by
      funext j
      rfl
    rw [hcomp, List.filterMap_eq_map]
  have hextradesign : (extraRecords pd pt).filterMap (fun r => r.bench_design) = [] := by
    unfold extraRecords
    rw [List.filterMap_map]
    have hcomp : ((fun r : ComparisonRecord => r.bench_design) ∘ (fun j : ℕ =>
        mkExtraRecord pd (pt.benches.getD j defaultBench))) = fun _ => none := by
      funext j
      rfl
    rw [hcomp]
    exact filterMap_none_eq_nil _
  have hmissreal : (missingRecords pd pt).filterMap (fun r => r.bench_real) = [] := by
    unfold missingRecords
    rw [List.filterMap_map]
    have hcomp : ((fun r : ComparisonRecord => r.bench_real) ∘ (fun i : ℕ =>
        mkMissingRecord pd (pd.benches.getD i defaultBench))) = fun _ => none := by
      funext i
      rfl
    rw [hcomp]
    exact filterMap_none_eq_nil _
  refine ⟨?_, ?_, ?_⟩
  · refine ((hC.filterMap _).trans ?_)
    rw [List.filterMap_append, List.filterMap_append, filterMap_design_matchRecords,
      hmissdes, hextradesign, List.append_nil, ← List.map_append]
    have := hrows.map (fun i => pd.benches.getD i defaultBench)
    refine this.trans ?_
    rw [map_getD_range]
  · refine ((hC.filterMap _).trans ?_)
    rw [List.filterMap_append, List.filterMap_append, filterMap_real_matchRecords,
      hmissreal, hextrareal, List.append_nil, ← List.map_append]
    have := hcols.map (fun j => pt.benches.getD j defaultBench)
    refine this.trans ?_
    rw [map_getD_range]
  · have hfiltM : (matchRecords pd pt tol).filter (fun r => r.rtype == "MATCH") =
        matchRecords pd pt tol := by
      rw [List.filter_eq_self]
      intro a ha
      obtain ⟨p, hp, rfl⟩ := List.mem_map.mp ha
      rfl
    have hfiltMiss : (missingRecords pd pt).filter (fun r => r.rtype == "MATCH") = [] := by
      rw [List.filter_eq_nil_iff]
      intro a ha
      obtain ⟨i, hi, rfl⟩ := List.mem_map.mp ha
      show ¬ (("MISSING" : String) == "MATCH") = true
      decide
    have hfiltE : (extraRecords pd pt).filter (fun r => r.rtype == "MATCH") = [] := by
      rw [List.filter_eq_nil_iff]
      intro a ha
      obtain ⟨j, hj, rfl⟩ := List.mem_map.mp ha
      show ¬ (("EXTRA" : String) == "MATCH") = true
      decide
    have hNm : ((compare_design_vs_asbuilt pd pt tol).filter
        (fun r => r.rtype == "MATCH")).length =
        (acceptedPairs pd.benches pt.benches).length := by
      rw [(hC.filter _).length_eq]
      rw [List.filter_append, List.filter_append, hfiltM, hfiltMiss, hfiltE,
        List.append_nil, List.append_nil]
      unfold matchRecords
      rw [List.length_map]
    have hrowlen := hrows.length_eq
    have hcollen := hcols.length_eq
    simp only [List.length_append, List.length_map, List.length_range] at hrowlen hcollen
    rw [hNm, hC.length_eq]
    simp only [List.length_append]
    unfold matchRecords missingRecords extraRecords
    simp only [List.length_map]
    omega

theorem indexGrid_nodup (n m : ℕ) : (indexGrid n m).Nodup := by
  induction n with
  | zero => exact List.nodup_nil
  | succ k ih =>
    rw [indexGrid_succ]
    refine List.Nodup.append ih ?_ ?_
    · refine List.Nodup.map ?_ (List.nodup_range m)
      intro a b hab
      simpa using hab
    · intro x hx1 hx2
      obtain ⟨h1, _⟩ := mem_indexGrid.mp hx1
      obtain ⟨j, _, rfl⟩ := List.mem_map.mp hx2
      simp at h1

theorem totalCost_append (bd bt : List BenchParams) (s t : List (ℕ × ℕ)) :
    totalCost bd bt (s ++ t) = totalCost bd bt s + totalCost bd bt t := by
  unfold totalCost
  rw [List.map_append, List.sum_append]

theorem totalCost_perm (bd bt : List BenchParams) {s t : List (ℕ × ℕ)} (h : s.Perm t) :
    totalCost bd bt s = totalCost bd bt t :=
  (h.map _).sum_eq

theorem accepted_rest_perm (bd bt : List BenchParams) :
    (acceptedPairs bd bt ++ (optAssignment bd bt).filter
      (fun p => ! decide (benchCost (bd.getD p.1 defaultBench)
        (bt.getD p.2 defaultBench) < 8))).Perm (optAssignment bd bt) := by
  unfold acceptedPairs
  exact List.filter_append_perm _ _

theorem compare_filter_match_perm (pd pt : ExtractionResult) (tol : Tolerances) :
    ((compare_design_vs_asbuilt pd pt tol).filter (fun r => r.rtype == "MATCH")).Perm
      (matchRecords pd pt tol) := by
  refine ((compare_perm_concat pd pt tol).filter _).trans ?_
  rw [List.filter_append, List.filter_append]
  have hfiltM : (matchRecords pd pt tol).filter (fun r => r.rtype == "MATCH") =
      matchRecords pd pt tol := by
    rw [List.filter_eq_self]
    intro a ha
    obtain ⟨p, hp, rfl⟩ := List.mem_map.mp ha
    rfl
  have hfiltMiss : (missingRecords pd pt).filter (fun r => r.rtype == "MATCH") = [] := by
    rw [List.filter_eq_nil_iff]
    intro a ha
    obtain ⟨i, hi, rfl⟩ := List.mem_map.mp ha
    show ¬ (("MISSING" : String) == "MATCH") = true
    decide
  have hfiltE : (extraRecords pd pt).filter (fun r => r.rtype == "MATCH") = [] := by
    rw [List.filter_eq_nil_iff]
    intro a ha
    obtain ⟨j, hj, rfl⟩ := List.mem_map.mp ha
    show ¬ (("EXTRA" : String) == "MATCH") = true
    decide
  rw [hfiltM, hfiltMiss, hfiltE, List.append_nil, List.append_nil]

/-- C1: compare_design_vs_asbuilt builds the midpoint-elevation cost matrix, solves the
    minimum-total-cost one-to-one assignment over it (the solved assignment is no more
    expensive than any candidate assignment), emits a MATCH record exactly for the
    assigned pairs of cost below 8.0, and the total cost of the accepted matches is at
    most the total cost of any alternative one-to-one pairing of the same design and
    as-built benches. -/
theorem claim_C1_assignment_optimal (pd pt : ExtractionResult) (tol : Tolerances)
    (alt : List (ℕ × ℕ))
    (hfst : (alt.map Prod.fst).Nodup) (hsnd : (alt.map Prod.snd).Nodup)
    (hrows : (alt.map Prod.fst).Perm ((acceptedPairs pd.benches pt.benches).map Prod.fst))
    (hcols : (alt.map Prod.snd).Perm ((acceptedPairs pd.benches pt.benches).map Prod.snd)) :
    (∀ s ∈ allAssignments pd.benches.length pt.benches.length,
      totalCost pd.benches pt.benches (optAssignment pd.benches pt.benches) ≤
        totalCost pd.benches pt.benches s) ∧
    acceptedPairs pd.benches pt.benches = (optAssignment pd.benches pt.benches).filter
      (fun p => decide (benchCost (pd.benches.getD p.1 defaultBench)
        (pt.benches.getD p.2 defaultBench) < 8)) ∧
    ((compare_design_vs_asbuilt pd pt tol).filter (fun r => r.rtype == "MATCH")).Perm
      ((acceptedPairs pd.benches pt.benches).map (fun p =>
        mkMatchRecord pd tol (pd.benches.getD p.1 defaultBench)
          (pt.benches.getD p.2 defaultBench))) ∧
    totalCost pd.benches pt.benches (acceptedPairs pd.benches pt.benches) ≤
      totalCost pd.benches pt.benches alt := by
  refine ⟨fun s hs => optAssignment_le pd.benches pt.benches s hs, rfl,
    compare_filter_match_perm pd pt tol, ?_⟩
  have hrest := accepted_rest_perm pd.benches pt.benches
  have hoptprops := mem_allAssignments_props (optAssignment_mem pd.benches pt.benches)
  have haltlen : alt.length = (acceptedPairs pd.benches pt.benches).length := by
    have := hrows.length_eq
    simpa using this
  have hSfstperm : (((optAssignment pd.benches pt.benches).filter
      (fun p => ! decide (benchCost (pd.benches.getD p.1 defaultBench)
        (pt.benches.getD p.2 defaultBench) < 8)) ++ alt).map Prod.fst).Perm
      ((optAssignment pd.benches pt.benches).map Prod.fst) := by
    rw [List.map_append]
    refine ((List.Perm.append_left _ hrows).trans ?_)
    rw [← List.map_append]
    exact ((List.perm_append_comm).trans hrest).map _
  have hSsndperm : (((optAssignment pd.benches pt.benches).filter
      (fun p => ! decide (benchCost (pd.benches.getD p.1 defaultBench)
        (pt.benches.getD p.2 defaultBench) < 8)) ++ alt).map Prod.snd).Perm
      ((optAssignment pd.benches pt.benches).map Prod.snd) := by
    rw [List.map_append]
    refine ((List.Perm.append_left _ hcols).trans ?_)
    rw [← List.map_append]
    exact ((List.perm_append_comm).trans hrest).map _
  have hSfst : (((optAssignment pd.benches pt.benches).filter
      (fun p => ! decide (benchCost (pd.benches.getD p.1 defaultBench)
        (pt.benches.getD p.2 defaultBench) < 8)) ++ alt).map Prod.fst).Nodup :=
    hSfstperm.nodup_iff.mpr hoptprops.2.1
  have hSsnd : (((optAssignment pd.benches pt.benches).filter
      (fun p => ! decide (benchCost (pd.benches.getD p.1 defaultBench)
        (pt.benches.getD p.2 defaultBench) < 8)) ++ alt).map Prod.snd).Nodup :=
    hSsndperm.nodup_iff.mpr hoptprops.2.2.1
  have hSnodup : ((optAssignment pd.benches pt.benches).filter
      (fun p => ! decide (benchCost (pd.benches.getD p.1 defaultBench)
        (pt.benches.getD p.2 defaultBench) < 8)) ++ alt).Nodup :=
    List.Nodup.of_map Prod.fst hSfst
  have hSlen : ((optAssignment pd.benches pt.benches).filter
      (fun p => ! decide (benchCost (pd.benches.getD p.1 defaultBench)
        (pt.benches.getD p.2 defaultBench) < 8)) ++ alt).length =
      min pd.benches.length pt.benches.length := by
    have h1 := hrest.length_eq
    have h2 := optAssignment_length pd.benches pt.benches
    rw [List.length_append] at h1 ⊢
    omega
  have hSsub : ∀ x ∈ (optAssignment pd.benches pt.benches).filter
      (fun p => ! decide (benchCost (pd.benches.getD p.1 defaultBench)
        (pt.benches.getD p.2 defaultBench) < 8)) ++ alt,
      x ∈ indexGrid pd.benches.length pt.benches.length := by
    intro x hx
    rcases List.mem_append.mp hx with hx | hx
    · exact hoptprops.2.2.2.mem ((List.filter_sublist _).mem hx)
    · refine mem_indexGrid.mpr ⟨?_, ?_⟩
      · have hmem : x.1 ∈ (acceptedPairs pd.benches pt.benches).map Prod.fst :=
          hrows.mem_iff.mp (List.mem_map.mpr ⟨x, hx, rfl⟩)
        obtain ⟨q, hq, hqx⟩ := List.mem_map.mp hmem
        rw [← hqx]
        exact (acceptedPairs_mem_grid pd.benches pt.benches hq).1
      · have hmem : x.2 ∈ (acceptedPairs pd.benches pt.benches).map Prod.snd :=
          hcols.mem_iff.mp (List.mem_map.mpr ⟨x, hx, rfl⟩)
        obtain ⟨q, hq, hqx⟩ := List.mem_map.mp hmem
        rw [← hqx]
        exact (acceptedPairs_mem_grid pd.benches pt.benches hq).2
  have hSperm : ((indexGrid pd.benches.length pt.benches.length).filter
      (fun x => decide (x ∈ (optAssignment pd.benches pt.benches).filter
        (fun p => ! decide (benchCost (pd.benches.getD p.1 defaultBench)
          (pt.benches.getD p.2 defaultBench) < 8)) ++ alt))).Perm
      ((optAssignment pd.benches pt.benches).filter
        (fun p => ! decide (benchCost (pd.benches.getD p.1 defaultBench)
          (pt.benches.getD p.2 defaultBench) < 8)) ++ alt) := by
    refine List.Subperm.antisymm ?_ ?_
    · refine (List.Nodup.filter _ (indexGrid_nodup _ _)).subperm ?_
      intro a ha
      rw [List.mem_filter] at ha
      simpa using ha.2
    · refine hSnodup.subperm ?_
      intro a ha
      rw [List.mem_filter]
      exact ⟨hSsub a ha, by simpa using ha⟩
  have hSmem : (indexGrid pd.benches.length pt.benches.length).filter
      (fun x => decide (x ∈ (optAssignment pd.benches pt.benches).filter
        (fun p => ! decide (benchCost (pd.benches.getD p.1 defaultBench)
          (pt.benches.getD p.2 defaultBench) < 8)) ++ alt)) ∈
      allAssignments pd.benches.length pt.benches.length := by
    unfold allAssignments
    rw [List.mem_filter]
    refine ⟨List.mem_sublists.mpr (List.filter_sublist _), ?_⟩
    unfold isAssignment
    simp only [Bool.and_eq_true, decide_eq_true_eq]
    refine ⟨⟨?_, ?_⟩, ?_⟩
    · rw [hSperm.length_eq]
      exact hSlen
    · exact ((hSperm.map Prod.fst).nodup_iff).mpr hSfst
    · exact ((hSperm.map Prod.snd).nodup_iff).mpr hSsnd
  have hle := optAssignment_le pd.benches pt.benches _ hSmem
  rw [totalCost_perm pd.benches pt.benches hSperm, totalCost_append] at hle
  rw [← totalCost_perm pd.benches pt.benches hrest, totalCost_append] at hle
  linarith

/-- Witness: for the concrete one-bench comparison the only alternative pairing is the
    accepted pair itself, and the accepted total cost is bounded by its total cost. -/
theorem claim_C1_assignment_optimal_witness :
    ([((0 : ℕ), (0 : ℕ))].map Prod.fst).Nodup ∧
    totalCost pdW.benches ptW.benches (acceptedPairs pdW.benches ptW.benches) ≤
      totalCost pdW.benches ptW.benches [(0, 0)] :=
  ⟨by decide,
   (claim_C1_assignment_optimal pdW ptW tolW [(0, 0)] (by decide) (by decide)
     (by with_unfolding_all decide) (by with_unfolding_all decide)).2.2.2⟩

theorem buildCandidates_crest_ge_toe (simplified : List (ℚ × ℚ)) (angles segLens : List ℚ)
    (ft : ℚ) : ∀ (crests toes : List ℕ) (num : ℕ),
    ∀ b ∈ buildCandidates simplified angles segLens ft crests toes num,
      b.toe_elevation ≤ b.crest_elevation := by
  intro crests
  induction crests with
  | nil =>
    intro toes num b hb
    simp [buildCandidates] at hb
  | cons c cs ih =>
    intro toes num b hb
    rw [buildCandidates] at hb
    rcases hdrop : toes.dropWhile (fun t => decide (t ≤ c)) with _ | ⟨t, ts⟩
    · rw [hdrop] at hb
      simp at hb
    · rw [hdrop] at hb
      simp only at hb
      by_cases h1 : |(if (simplified.getD t (0, 0)).2 < (simplified.getD c (0, 0)).2
          then simplified.getD c (0, 0) else simplified.getD t (0, 0)).2 -
          (if (simplified.getD t (0, 0)).2 < (simplified.getD c (0, 0)).2
          then simplified.getD t (0, 0) else simplified.getD c (0, 0)).2| < 2
      · rw [if_pos h1] at hb
        exact ih ts num b hb
      · rw [if_neg h1] at hb
        by_cases h2 : distSq (if (simplified.getD t (0, 0)).2 < (simplified.getD c (0, 0)).2
            then simplified.getD c (0, 0) else simplified.getD t (0, 0))
            (if (simplified.getD t (0, 0)).2 < (simplified.getD c (0, 0)).2
            then simplified.getD t (0, 0) else simplified.getD c (0, 0)) < 9/4
        · rw [if_pos h2] at hb
          exact ih ts num b hb
        · rw [if_neg h2] at hb
          rcases List.mem_cons.mp hb with hb | hb
          · subst hb
            simp only
            by_cases hcmp : (simplified.getD t (0, 0)).2 < (simplified.getD c (0, 0)).2
            · rw [if_pos hcmp, if_pos hcmp]
              exact le_of_lt hcmp
            · rw [if_neg hcmp, if_neg hcmp]
              exact not_lt.mp hcmp
          · exact ih ts (num + 1) b hb

theorem mergeBench_crest_ge_toe {prev curr : BenchParams}
    (hp : prev.toe_elevation ≤ prev.crest_elevation) :
    (mergeBench prev curr).toe_elevation ≤ (mergeBench prev curr).crest_elevation := by
  unfold mergeBench
  simp only
  calc min prev.toe_elevation curr.toe_elevation ≤ prev.toe_elevation := min_le_left _ _
    _ ≤ prev.crest_elevation := hp
    _ ≤ max prev.crest_elevation curr.crest_elevation := le_max_left _ _

theorem mergeFold_crest_ge_toe : ∀ (prev : BenchParams) (l : List BenchParams),
    prev.toe_elevation ≤ prev.crest_elevation →
    (∀ a ∈ l, a.toe_elevation ≤ a.crest_elevation) →
    ∀ b ∈ mergeFold prev l, b.toe_elevation ≤ b.crest_elevation
  | prev, [], hp, _, b, hb => by
    rw [mergeFold] at hb
    rcases List.mem_singleton.mp hb with rfl
    exact hp
  | prev, curr :: rest, hp, hl, b, hb => by
    rw [mergeFold] at hb
    split at hb
    · exact mergeFold_crest_ge_toe _ rest (mergeBench_crest_ge_toe hp)
        (fun a ha => hl a (List.mem_cons_of_mem _ ha)) b hb
    · rcases List.mem_cons.mp hb with rfl | hb
      · exact hp
      · exact mergeFold_crest_ge_toe _ rest (hl curr (List.mem_cons_self _ _))
          (fun a ha => hl a (List.mem_cons_of_mem _ ha)) b hb

theorem renumber_crest_ge_toe {l : List BenchParams}
    (hl : ∀ a ∈ l, a.toe_elevation ≤ a.crest_elevation) :
    ∀ b ∈ renumber l, b.toe_elevation ≤ b.crest_elevation := by
  intro b hb
  unfold renumber at hb
  rw [List.mapIdx_eq_enum_map] at hb
  obtain ⟨⟨i, a⟩, hmem, rfl⟩ := List.mem_map.mp hb
  exact hl a (List.snd_mem_of_mem_enum hmem)

theorem mergeMicro_crest_ge_toe {l : List BenchParams}
    (hl : ∀ a ∈ l, a.toe_elevation ≤ a.crest_elevation) :
    ∀ b ∈ mergeMicro l, b.toe_elevation ≤ b.crest_elevation := by
  intro b hb
  match l, hb with
  | [], hb => simp [mergeMicro] at hb
  | [x], hb =>
    rw [mergeMicro] at hb
    rcases List.mem_singleton.mp hb with rfl
    exact hl b (List.mem_singleton.mpr rfl)
  | x :: y :: rest, hb =>
    rw [mergeMicro] at hb
    refine renumber_crest_ge_toe ?_ b hb
    intro a ha
    exact mergeFold_crest_ge_toe x (y :: rest) (hl x (List.mem_cons_self _ _))
      (fun c hc => hl c (List.mem_cons_of_mem _ hc)) a ha

theorem sortByCrestDesc_crest_ge_toe {l : List BenchParams}
    (hl : ∀ a ∈ l, a.toe_elevation ≤ a.crest_elevation) :
    ∀ b ∈ sortByCrestDesc l, b.toe_elevation ≤ b.crest_elevation := by
  intro b hb
  unfold sortByCrestDesc at hb
  exact hl b ((List.perm_insertionSort _ _).mem_iff.mp hb)

theorem assignBerms_crest_ge_toe : ∀ (l : List BenchParams),
    (∀ a ∈ l, a.toe_elevation ≤ a.crest_elevation) →
    ∀ b ∈ assignBerms l, b.toe_elevation ≤ b.crest_elevation
  | [], _, b, hb => by simp [assignBerms] at hb
  | [x], hl, b, hb => by
    rw [assignBerms] at hb
    rcases List.mem_singleton.mp hb with rfl
    exact hl b (List.mem_singleton.mpr rfl)
  | x :: y :: rest, hl, b, hb => by
    rw [assignBerms] at hb
    rcases List.mem_cons.mp hb with rfl | hb
    · exact hl x (List.mem_cons_self _ _)
    · exact assignBerms_crest_ge_toe (y :: rest)
        (fun c hc => hl c (List.mem_cons_of_mem _ hc)) b hb

theorem groupGo_crest_ge_toe : ∀ (maxw : ℚ) (acc : List BenchParams) (b : BenchParams)
    (rest : List BenchParams),
    (∀ a ∈ acc, a.toe_elevation ≤ a.crest_elevation) →
    b.toe_elevation ≤ b.crest_elevation →
    (∀ a ∈ rest, a.toe_elevation ≤ a.crest_elevation) →
    ∀ g ∈ groupGo maxw acc b rest, ∀ x ∈ g, x.toe_elevation ≤ x.crest_elevation
  | maxw, acc, b, [], hacc, hb, _, g, hg, x, hx => by
    rw [groupGo] at hg
    rcases List.mem_singleton.mp hg with rfl
    rcases List.mem_append.mp hx with hx | hx
    · exact hacc x hx
    · rcases List.mem_singleton.mp hx with rfl
      exact hb
  | maxw, acc, b, r :: rs, hacc, hb, hrest, g, hg, x, hx => by
    rw [groupGo] at hg
    split at hg
    · rcases List.mem_cons.mp hg with rfl | hg
      · rcases List.mem_append.mp hx with hx | hx
        · exact hacc x hx
        · rcases List.mem_singleton.mp hx with rfl
          exact hb
      · exact groupGo_crest_ge_toe maxw [] r rs (by simp)
          (hrest r (List.mem_cons_self _ _))
          (fun a ha => hrest a (List.mem_cons_of_mem _ ha)) g hg x hx
    · exact groupGo_crest_ge_toe maxw (acc ++ [b]) r rs
        (fun a ha => by
          rcases List.mem_append.mp ha with ha | ha
          · exact hacc a ha
          · rcases List.mem_singleton.mp ha with rfl
            exact hb)
        (hrest r (List.mem_cons_self _ _))
        (fun a ha => hrest a (List.mem_cons_of_mem _ ha)) g hg x hx

theorem foldl_longest_mem : ∀ (gs : List (List BenchParams)) (g : List BenchParams),
    gs.foldl (fun best x => if best.length < x.length then x else best) g ∈ g :: gs
  | [], g => List.mem_singleton.mpr rfl
  | r :: rs, g => by
    rw [List.foldl_cons]
    by_cases h : g.length < r.length
    · rw [if_pos h]
      exact List.mem_cons_of_mem _ (foldl_longest_mem rs r)
    · rw [if_neg h]
      have := foldl_longest_mem rs g
      rcases List.mem_cons.mp this with h2 | h2
      · rw [h2]
        exact List.mem_cons_self _ _
      · exact List.mem_cons_of_mem _ (List.mem_cons_of_mem _ h2)

theorem firstLongest_mem_or_nil (gs : List (List BenchParams)) :
    firstLongest gs ∈ gs ∨ firstLongest gs = [] := by
  match gs with
  | [] => exact Or.inr rfl
  | g :: rest =>
    left
    rw [firstLongest]
    exact foldl_longest_mem rest g

theorem groupFilter_crest_ge_toe {maxw : ℚ} {l : List BenchParams}
    (hl : ∀ a ∈ l, a.toe_elevation ≤ a.crest_elevation) :
    ∀ b ∈ groupFilter maxw l, b.toe_elevation ≤ b.crest_elevation := by
  intro b hb
  match l, hb with
  | [], hb => simp [groupFilter] at hb
  | x :: rest, hb =>
    rw [groupFilter] at hb
    refine renumber_crest_ge_toe ?_ b hb
    intro a ha
    rcases firstLongest_mem_or_nil (groupGo maxw [] x rest) with hmem | hnil
    · exact groupGo_crest_ge_toe maxw [] x rest (by simp) (hl x (List.mem_cons_self _ _))
        (fun c hc => hl c (List.mem_cons_of_mem _ hc)) _ hmem a ha
    · rw [hnil] at ha
      exact absurd ha (List.not_mem_nil a)

theorem trailingBerm_cases (ang : ℚ → ℚ → ℚ) (distances elevations : List ℚ)
    (berm_threshold : ℚ) (l : List BenchParams) :
    trailingBerm ang distances elevations berm_threshold l = l ∨
    ∃ lb w, l.getLast? = some lb ∧
      trailingBerm ang distances elevations berm_threshold l =
        l.dropLast ++ [setBermRamp lb w] := by
  unfold trailingBerm
  match hlast : l.getLast? with
  | none => exact Or.inl rfl
  | some lb =>
    simp only
    split
    all_goals try split
    all_goals try split
    all_goals first
    | (right
       exact ⟨lb, _, rfl, rfl⟩)
    | exact Or.inl rfl
    | exact Or.inl (ite_self l)

theorem trailingBerm_crest_ge_toe {ang : ℚ → ℚ → ℚ} {distances elevations : List ℚ}
    {bt : ℚ} {l : List BenchParams}
    (hl : ∀ a ∈ l, a.toe_elevation ≤ a.crest_elevation) :
    ∀ b ∈ trailingBerm ang distances elevations bt l,
      b.toe_elevation ≤ b.crest_elevation := by
  intro b hb
  rcases trailingBerm_cases ang distances elevations bt l with heq | ⟨lb, w, hlast, heq⟩
  · rw [heq] at hb
    exact hl b hb
  · rw [heq] at hb
    rcases List.mem_append.mp hb with hb | hb
    · exact hl b ((List.dropLast_sublist l).mem hb)
    · rcases List.mem_singleton.mp hb with rfl
      exact hl lb (List.mem_of_mem_getLast? hlast)

theorem mem_ite_prop {α : Type} {P : Prop} [Decidable P] {x y : List α} {Q : α → Prop}
    (hx : ∀ a ∈ x, Q a) (hy : ∀ a ∈ y, Q a) : ∀ a ∈ (if P then x else y), Q a := by
  by_cases h : P
  · rw [if_pos h]
    exact hx
  · rw [if_neg h]
    exact hy

theorem benchesFromAngles_crest_ge_toe (ang : ℚ → ℚ → ℚ) (distances elevations : List ℚ)
    (face_threshold berm_threshold max_berm_width : ℚ)
    (simplified : List (ℚ × ℚ)) (angles segLens : List ℚ) :
    ∀ b ∈ benchesFromAngles ang distances elevations face_threshold berm_threshold
        max_berm_width simplified angles segLens,
      b.toe_elevation ≤ b.crest_elevation := by
  intro b hb
  rw [benchesFromAngles] at hb
  refine trailingBerm_crest_ge_toe ?_ b hb
  have hw : ∀ (crests toes : List ℕ),
      ∀ a ∈ assignBerms (renumber (sortByCrestDesc (mergeMicro
        (buildCandidates simplified angles segLens face_threshold crests toes 0)))),
        a.toe_elevation ≤ a.crest_elevation := fun crests toes =>
    assignBerms_crest_ge_toe _ (renumber_crest_ge_toe (sortByCrestDesc_crest_ge_toe
      (mergeMicro_crest_ge_toe (buildCandidates_crest_ge_toe _ _ _ _ crests toes 0))))
  exact mem_ite_prop (groupFilter_crest_ge_toe (hw _ _)) (hw _ _)

theorem extract_benches_cases (ang : ℚ → ℚ → ℚ) (sqrtq : ℚ → ℚ)
    (distances elevations : List ℚ) (section_name sector : String)
    (resolution face_threshold berm_threshold max_berm_width : ℚ) :
    (extract_parameters ang sqrtq distances elevations section_name sector
        resolution face_threshold berm_threshold max_berm_width).benches = [] ∨
    ∃ s a g, (extract_parameters ang sqrtq distances elevations section_name sector
        resolution face_threshold berm_threshold max_berm_width).benches =
      benchesFromAngles ang distances elevations face_threshold berm_threshold
        max_berm_width s a g := by
  unfold extract_parameters
  simp only
  split
  · exact Or.inl rfl
  · split
    · exact Or.inl rfl
    · split
      · exact Or.inl rfl
      · split
        · exact Or.inr ⟨_, _, _, rfl⟩
        · split
          · exact Or.inr ⟨_, _, _, rfl⟩
          · exact Or.inr ⟨_, _, _, rfl⟩

/-- C3: every bench in the benches list of an ExtractionResult returned by
    extract_parameters satisfies crest_elevation >= toe_elevation, for every numeric
    input profile and configuration (any angle and square-root model, any tolerance
    parameters): orientation is normalized at bench creation and preserved by every
    later pipeline stage. -/
theorem claim_C3_crest_ge_toe (ang : ℚ → ℚ → ℚ) (sqrtq : ℚ → ℚ)
    (distances elevations : List ℚ) (section_name sector : String)
    (resolution face_threshold berm_threshold max_berm_width : ℚ) :
    ∀ b ∈ (extract_parameters ang sqrtq distances elevations section_name sector
        resolution face_threshold berm_threshold max_berm_width).benches,
      b.toe_elevation ≤ b.crest_elevation := by
  intro b hb
  rcases extract_benches_cases ang sqrtq distances elevations section_name sector
      resolution face_threshold berm_threshold max_berm_width with h | ⟨s, a, g, h⟩
  · rw [h] at hb
    exact absurd hb (List.not_mem_nil b)
  · rw [h] at hb
    exact benchesFromAngles_crest_ge_toe ang distances elevations face_threshold
      berm_threshold max_berm_width s a g b hb

theorem claim_C3_crest_ge_toe_witness :
    benchZ ∈ (extract_parameters angAxis Rat.sqrt zigD zigE "S" "A" (1/2) 70 20
      50).benches ∧ benchZ.toe_elevation ≤ benchZ.crest_elevation :=
  ⟨by with_unfolding_all decide,
   claim_C3_crest_ge_toe angAxis Rat.sqrt zigD zigE "S" "A" (1/2) 70 20 50 benchZ
     (by with_unfolding_all decide)⟩

/-- A bench that has not yet received a berm: zero width, flag down. Every bench
    produced by the candidate and merge stages is in this state. -/
def Clean (b : BenchParams) : Prop := b.berm_width = 0 ∧ b.is_ramp = false

/-- The ramp flag agrees with the 15..42 berm-width test. -/
def RampOk (b : BenchParams) : Prop :=
  b.is_ramp = decide (15 ≤ b.berm_width ∧ b.berm_width ≤ 42)

theorem clean_rampok {b : BenchParams} (h : Clean b) : RampOk b := by
  rcases h with ⟨hw, hr⟩
  unfold RampOk
  rw [hr, hw]
  with_unfolding_all decide

theorem buildCandidates_clean (simplified : List (ℚ × ℚ)) (angles segLens : List ℚ)
    (ft : ℚ) : ∀ (crests toes : List ℕ) (num : ℕ),
    ∀ b ∈ buildCandidates simplified angles segLens ft crests toes num, Clean b := by
  intro crests
  induction crests with
  | nil =>
    intro toes num b hb
    simp [buildCandidates] at hb
  | cons c cs ih =>
    intro toes num b hb
    rw [buildCandidates] at hb
    rcases hdrop : toes.dropWhile (fun t => decide (t ≤ c)) with _ | ⟨t, ts⟩
    · rw [hdrop] at hb
      simp at hb
    · rw [hdrop] at hb
      simp only at hb
      by_cases h1 : |(if (simplified.getD t (0, 0)).2 < (simplified.getD c (0, 0)).2
          then simplified.getD c (0, 0) else simplified.getD t (0, 0)).2 -
          (if (simplified.getD t (0, 0)).2 < (simplified.getD c (0, 0)).2
          then simplified.getD t (0, 0) else simplified.getD c (0, 0)).2| < 2
      · rw [if_pos h1] at hb
        exact ih ts num b hb
      · rw [if_neg h1] at hb
        by_cases h2 : distSq (if (simplified.getD t (0, 0)).2 < (simplified.getD c (0, 0)).2
            then simplified.getD c (0, 0) else simplified.getD t (0, 0))
            (if (simplified.getD t (0, 0)).2 < (simplified.getD c (0, 0)).2
            then simplified.getD t (0, 0) else simplified.getD c (0, 0)) < 9/4
        · rw [if_pos h2] at hb
          exact ih ts num b hb
        · rw [if_neg h2] at hb
          rcases List.mem_cons.mp hb with hb | hb
          · subst hb
            exact ⟨rfl, rfl⟩
          · exact ih ts (num + 1) b hb

theorem mergeBench_clean (prev curr : BenchParams) : Clean (mergeBench prev curr) :=
  ⟨rfl, rfl⟩

theorem mergeFold_clean : ∀ (prev : BenchParams) (l : List BenchParams),
    Clean prev → (∀ a ∈ l, Clean a) → ∀ b ∈ mergeFold prev l, Clean b
  | prev, [], hp, _, b, hb => by
    rw [mergeFold] at hb
    rcases List.mem_singleton.mp hb with rfl
    exact hp
  | prev, curr :: rest, hp, hl, b, hb => by
    rw [mergeFold] at hb
    split at hb
    · exact mergeFold_clean _ rest (mergeBench_clean prev curr)
        (fun a ha => hl a (List.mem_cons_of_mem _ ha)) b hb
    · rcases List.mem_cons.mp hb with rfl | hb
      · exact hp
      · exact mergeFold_clean _ rest (hl curr (List.mem_cons_self _ _))
          (fun a ha => hl a (List.mem_cons_of_mem _ ha)) b hb

theorem clean_bench_number {b : BenchParams} (n : ℕ) (h : Clean b) :
    Clean { b with bench_number := n } := h

theorem renumber_clean {l : List BenchParams} (hl : ∀ a ∈ l, Clean a) :
    ∀ b ∈ renumber l, Clean b := by
  intro b hb
  unfold renumber at hb
  rw [List.mapIdx_eq_enum_map] at hb
  obtain ⟨⟨i, a⟩, hmem, rfl⟩ := List.mem_map.mp hb
  exact clean_bench_number _ (hl a (List.snd_mem_of_mem_enum hmem))

theorem mergeMicro_clean {l : List BenchParams} (hl : ∀ a ∈ l, Clean a) :
    ∀ b ∈ mergeMicro l, Clean b := by
  intro b hb
  match l, hb with
  | [], hb => simp [mergeMicro] at hb
  | [x], hb =>
    rw [mergeMicro] at hb
    rcases List.mem_singleton.mp hb with rfl
    exact hl b (List.mem_singleton.mpr rfl)
  | x :: y :: rest, hb =>
    rw [mergeMicro] at hb
    refine renumber_clean ?_ b hb
    intro a ha
    exact mergeFold_clean x (y :: rest) (hl x (List.mem_cons_self _ _))
      (fun c hc => hl c (List.mem_cons_of_mem _ hc)) a ha

theorem sortByCrestDesc_clean {l : List BenchParams} (hl : ∀ a ∈ l, Clean a) :
    ∀ b ∈ sortByCrestDesc l, Clean b := by
  intro b hb
  unfold sortByCrestDesc at hb
  exact hl b ((List.perm_insertionSort _ _).mem_iff.mp hb)

theorem setBermRamp_rampok {b : BenchParams} (w : ℚ) (h : Clean b ∨ b.is_ramp = false) :
    RampOk (setBermRamp b w) := by
  have hr : b.is_ramp = false := by
    rcases h with ⟨_, hr⟩ | hr
    · exact hr
    · exact hr
  unfold RampOk setBermRamp
  simp only
  by_cases hw : 15 ≤ w ∧ w ≤ 42
  · rw [if_pos hw, decide_eq_true hw]
  · rw [if_neg hw, hr, decide_eq_false hw]

theorem assignBerms_rampok : ∀ (l : List BenchParams), (∀ a ∈ l, Clean a) →
    ∀ b ∈ assignBerms l, RampOk b
  | [], _, b, hb => by simp [assignBerms] at hb
  | [x], hl, b, hb => by
    rw [assignBerms] at hb
    rcases List.mem_singleton.mp hb with rfl
    exact clean_rampok (hl b (List.mem_singleton.mpr rfl))
  | x :: y :: rest, hl, b, hb => by
    rw [assignBerms] at hb
    rcases List.mem_cons.mp hb with rfl | hb
    · exact setBermRamp_rampok _ (Or.inl (hl x (List.mem_cons_self _ _)))
    · exact assignBerms_rampok (y :: rest)
        (fun a ha => hl a (List.mem_cons_of_mem _ ha)) b hb

theorem getLast?_cons_ne {α : Type} (a : α) : ∀ (l : List α), l ≠ [] →
    (a :: l).getLast? = l.getLast?
  | [], h => absurd rfl h
  | x :: xs, _ => List.getLast?_cons_cons

theorem assignBerms_ne_nil : ∀ (l : List BenchParams), l ≠ [] → assignBerms l ≠ []
  | [], h => absurd rfl h
  | [x], _ => by
    rw [assignBerms]
    simp
  | x :: y :: rest, _ => by
    rw [assignBerms]
    simp

theorem assignBerms_getLast : ∀ (l : List BenchParams),
    (assignBerms l).getLast? = l.getLast?
  | [] => rfl
  | [x] => rfl
  | x :: y :: rest => by
    rw [assignBerms, getLast?_cons_ne _ _ (assignBerms_ne_nil (y :: rest) (by simp)),
        assignBerms_getLast (y :: rest), getLast?_cons_ne x (y :: rest) (by simp)]

theorem rampok_bench_number {b : BenchParams} (n : ℕ) (h : RampOk b) :
    RampOk { b with bench_number := n } := h

theorem renumber_rampok {l : List BenchParams} (hl : ∀ a ∈ l, RampOk a) :
    ∀ b ∈ renumber l, RampOk b := by
  intro b hb
  unfold renumber at hb
  rw [List.mapIdx_eq_enum_map] at hb
  obtain ⟨⟨i, a⟩, hmem, rfl⟩ := List.mem_map.mp hb
  exact rampok_bench_number _ (hl a (List.snd_mem_of_mem_enum hmem))

theorem renumber_last_clean {l : List BenchParams}
    (h : ∀ lb, l.getLast? = some lb → Clean lb) :
    ∀ lb, (renumber l).getLast? = some lb → Clean lb := by
  induction l using List.reverseRecOn with
  | nil =>
    intro lb hlb
    simp [renumber] at hlb
  | append_singleton xs x _ =>
    intro lb hlb
    unfold renumber at hlb
    rw [List.mapIdx_append, List.mapIdx_cons, List.mapIdx_nil, List.getLast?_concat] at hlb
    obtain rfl : _ = lb := Option.some.inj hlb
    exact clean_bench_number _ (h x (List.getLast?_concat xs))

theorem ramp_false_of_wide {b : BenchParams} {maxw : ℚ} (hok : RampOk b)
    (hm : 42 ≤ maxw) (hw : maxw < b.berm_width) : b.is_ramp = false := by
  rw [RampOk] at hok
  rw [hok, decide_eq_false_iff_not]
  rintro ⟨_, h42⟩
  linarith

theorem groupGo_spec {maxw : ℚ} (hm : 42 ≤ maxw) :
    ∀ (rest : List BenchParams) (acc : List BenchParams) (b : BenchParams),
    (∀ a ∈ acc, RampOk a) → RampOk b → (∀ a ∈ rest, RampOk a) →
    (∀ lb, (b :: rest).getLast? = some lb → Clean lb) →
    ∀ g ∈ groupGo maxw acc b rest,
      (∀ a ∈ g, RampOk a) ∧ ∀ lb, g.getLast? = some lb → Clean lb
  | [], acc, b, hacc, hb, _, hlast, g, hg => by
    rw [groupGo] at hg
    rcases List.mem_singleton.mp hg with rfl
    constructor
    · intro a ha
      rcases List.mem_append.mp ha with ha | ha
      · exact hacc a ha
      · rcases List.mem_singleton.mp ha with rfl
        exact hb
    · intro lb hlb
      rw [List.getLast?_concat] at hlb
      obtain rfl : b = lb := Option.some.inj hlb
      exact hlast b rfl
  | x :: xs, acc, b, hacc, hb, hrest, hlast, g, hg => by
    rw [groupGo] at hg
    have hlast2 : ∀ lb, (x :: xs).getLast? = some lb → Clean lb := by
      intro lb hlb
      refine hlast lb ?_
      rw [getLast?_cons_ne b (x :: xs) (by simp)]
      exact hlb
    split at hg
    · rcases List.mem_cons.mp hg with rfl | hg
      · have hrf : b.is_ramp = false := ramp_false_of_wide hb hm (by assumption)
        have hcl : Clean { b with berm_width := 0 } := ⟨rfl, hrf⟩
        constructor
        · intro a ha
          rcases List.mem_append.mp ha with ha | ha
          · exact hacc a ha
          · rcases List.mem_singleton.mp ha with rfl
            exact clean_rampok hcl
        · intro lb hlb
          rw [List.getLast?_concat] at hlb
          obtain rfl : _ = lb := Option.some.inj hlb
          exact hcl
      · exact groupGo_spec hm xs [] x (by simp) (hrest x (List.mem_cons_self _ _))
          (fun a ha => hrest a (List.mem_cons_of_mem _ ha)) hlast2 g hg
    · refine groupGo_spec hm xs (acc ++ [b]) x ?_ (hrest x (List.mem_cons_self _ _))
        (fun a ha => hrest a (List.mem_cons_of_mem _ ha)) hlast2 g hg
      intro a ha
      rcases List.mem_append.mp ha with ha | ha
      · exact hacc a ha
      · rcases List.mem_singleton.mp ha with rfl
        exact hb

theorem groupFilter_rampok {maxw : ℚ} (hm : 42 ≤ maxw) {l : List BenchParams}
    (hl : ∀ a ∈ l, RampOk a) (hlast : ∀ lb, l.getLast? = some lb → Clean lb) :
    (∀ b ∈ groupFilter maxw l, RampOk b) ∧
    (∀ lb, (groupFilter maxw l).getLast? = some lb → Clean lb) := by
  match l with
  | [] =>
    constructor
    · intro b hb
      simp [groupFilter] at hb
    · intro lb hlb
      simp [groupFilter] at hlb
  | x :: rest =>
    rw [groupFilter]
    rcases firstLongest_mem_or_nil (groupGo maxw [] x rest) with hmem | hnil
    · have hspec := groupGo_spec hm rest [] x (by simp) (hl x (List.mem_cons_self _ _))
        (fun a ha => hl a (List.mem_cons_of_mem _ ha)) hlast _ hmem
      exact ⟨renumber_rampok hspec.1, renumber_last_clean hspec.2⟩
    · rw [hnil]
      constructor
      · intro b hb
        simp [renumber] at hb
      · intro lb hlb
        simp [renumber] at hlb

theorem trailingBerm_rampok {ang : ℚ → ℚ → ℚ} {distances elevations : List ℚ}
    {bt : ℚ} {l : List BenchParams} (hl : ∀ a ∈ l, RampOk a)
    (hlast : ∀ lb, l.getLast? = some lb → Clean lb) :
    ∀ b ∈ trailingBerm ang distances elevations bt l, RampOk b := by
  intro b hb
  rcases trailingBerm_cases ang distances elevations bt l with heq | ⟨lb, w, hla, heq⟩
  · rw [heq] at hb
    exact hl b hb
  · rw [heq] at hb
    rcases List.mem_append.mp hb with hb | hb
    · exact hl b ((List.dropLast_sublist l).mem hb)
    · rcases List.mem_singleton.mp hb with rfl
      exact setBermRamp_rampok _ (Or.inl (hlast lb hla))

theorem ite_last_clean {P : Prop} [Decidable P] {x y : List BenchParams}
    (hx : ∀ lb, x.getLast? = some lb → Clean lb)
    (hy : ∀ lb, y.getLast? = some lb → Clean lb) :
    ∀ lb, (if P then x else y).getLast? = some lb → Clean lb := by
  by_cases h : P
  · rw [if_pos h]
    exact hx
  · rw [if_neg h]
    exact hy

theorem benchesFromAngles_rampok (ang : ℚ → ℚ → ℚ) (distances elevations : List ℚ)
    (face_threshold berm_threshold max_berm_width : ℚ)
    (simplified : List (ℚ × ℚ)) (angles segLens : List ℚ) (hm : 42 ≤ max_berm_width) :
    ∀ b ∈ benchesFromAngles ang distances elevations face_threshold berm_threshold
        max_berm_width simplified angles segLens, RampOk b := by
  intro b hb
  rw [benchesFromAngles] at hb
  have hclean : ∀ (crests toes : List ℕ),
      ∀ a ∈ renumber (sortByCrestDesc (mergeMicro
        (buildCandidates simplified angles segLens face_threshold crests toes 0))), Clean a :=
    fun crests toes =>
      renumber_clean (sortByCrestDesc_clean (mergeMicro_clean
        (buildCandidates_clean _ _ _ _ crests toes 0)))
  have hwb : ∀ (crests toes : List ℕ),
      ∀ a ∈ assignBerms (renumber (sortByCrestDesc (mergeMicro
        (buildCandidates simplified angles segLens face_threshold crests toes 0)))),
        RampOk a :=
    fun crests toes => assignBerms_rampok _ (hclean crests toes)
  have hwblast : ∀ (crests toes : List ℕ) (lb : BenchParams),
      (assignBerms (renumber (sortByCrestDesc (mergeMicro
        (buildCandidates simplified angles segLens face_threshold crests toes 0))))).getLast? =
        some lb → Clean lb := by
    intro crests toes lb hlb
    rw [assignBerms_getLast] at hlb
    exact hclean crests toes lb (List.mem_of_mem_getLast? hlb)
  refine trailingBerm_rampok ?_ ?_ b hb
  · exact mem_ite_prop ((groupFilter_rampok hm (hwb _ _) (hwblast _ _)).1) (hwb _ _)
  · exact ite_last_clean ((groupFilter_rampok hm (hwb _ _) (hwblast _ _)).2) (hwblast _ _)

/-- C4 counterexample: the claimed equivalence fails for a positive max_berm_width.
    On the zigzag profile with max_berm_width 16, the group filter zeroes the berm
    width of the surviving bench without clearing its ramp flag, so the result has
    is_ramp true with berm_width 0 outside [15, 42]. -/
theorem claim_C4_counterexample :
    ∃ b, b ∈ (extract_parameters angAxis Rat.sqrt zigD zigE "S" "A" (1/2) 70 20
        16).benches ∧
      ¬(b.is_ramp = true ↔ 15 ≤ b.berm_width ∧ b.berm_width ≤ 42) :=
  ⟨benchZ16, by with_unfolding_all decide, by with_unfolding_all decide⟩

/-- C4, amended: for every bench of an ExtractionResult returned by extract_parameters,
    is_ramp is true exactly when 15 <= berm_width <= 42, provided max_berm_width is at
    least 42: then the group filter only ever zeroes the berm of benches whose flag is
    down, so the equivalence set up by the berm-assignment and trailing-berm stages is
    preserved. It fails for smaller positive max_berm_width (see the counterexample). -/
theorem claim_C4_ramp_range (ang : ℚ → ℚ → ℚ) (sqrtq : ℚ → ℚ)
    (distances elevations : List ℚ) (section_name sector : String)
    (resolution face_threshold berm_threshold max_berm_width : ℚ)
    (hm : 42 ≤ max_berm_width) :
    ∀ b ∈ (extract_parameters ang sqrtq distances elevations section_name sector
        resolution face_threshold berm_threshold max_berm_width).benches,
      b.is_ramp = true ↔ 15 ≤ b.berm_width ∧ b.berm_width ≤ 42 := by
  intro b hb
  have hok : RampOk b := by
    rcases extract_benches_cases ang sqrtq distances elevations section_name sector
        resolution face_threshold berm_threshold max_berm_width with h | ⟨s, a, g, h⟩
    · rw [h] at hb
      exact absurd hb (List.not_mem_nil b)
    · rw [h] at hb
      exact benchesFromAngles_rampok ang distances elevations face_threshold
        berm_threshold max_berm_width s a g hm b hb
  rw [RampOk] at hok
  rw [hok]
  exact decide_eq_true_iff

theorem claim_C4_ramp_range_witness :
    (42 : ℚ) ≤ 50 ∧
    benchZ ∈ (extract_parameters angAxis Rat.sqrt zigD zigE "S" "A" (1/2) 70 20
      50).benches ∧
    (benchZ.is_ramp = true ↔ 15 ≤ benchZ.berm_width ∧ benchZ.berm_width ≤ 42) :=
  ⟨by with_unfolding_all decide, by with_unfolding_all decide,
   claim_C4_ramp_range angAxis Rat.sqrt zigD zigE "S" "A" (1/2) 70 20 50
     (by with_unfolding_all decide) benchZ (by with_unfolding_all decide)⟩

theorem getD_mem_of_lt {α : Type} (l : List α) (n : ℕ) (d : α) (h : n < l.length) :
    l.getD n d ∈ l := by
  rw [List.getD_eq_getElem?_getD, List.getElem?_eq_getElem h]
  exact List.getElem_mem h

theorem head?_getD_eq {α : Type} {l₁ l₂ : List α} (h : l₁.head? = l₂.head?) (d : α) :
    l₁.getD 0 d = l₂.getD 0 d := by
  rw [List.getD_eq_getElem?_getD, List.getD_eq_getElem?_getD, ← List.head?_eq_getElem?,
    ← List.head?_eq_getElem?, h]

theorem getLast?_getD_eq {α : Type} {l₁ l₂ : List α} (h : l₁.getLast? = l₂.getLast?) (d : α) :
    l₁.getD (l₁.length - 1) d = l₂.getD (l₂.length - 1) d := by
  rw [List.getD_eq_getElem?_getD, List.getD_eq_getElem?_getD, ← List.getLast?_eq_getElem?,
    ← List.getLast?_eq_getElem?, h]

theorem sublist_dropLast {α : Type} {l₁ l₂ : List α} (h : List.Sublist l₁ l₂) :
    List.Sublist l₁.dropLast l₂.dropLast := by
  induction h with
  | slnil => exact List.Sublist.slnil
  | cons a h ih =>
    rename_i m₁ m₂
    cases m₂ with
    | nil => exact ih
    | cons b t =>
      show List.Sublist m₁.dropLast (a :: (b :: t).dropLast)
      exact List.Sublist.cons a ih
  | cons₂ a h ih =>
    rename_i m₁ m₂
    cases m₁ with
    | nil => exact List.nil_sublist _
    | cons x t₁ =>
      cases m₂ with
      | nil => exact absurd (List.sublist_nil.mp h) (by simp)
      | cons y t₂ =>
        show List.Sublist (a :: (x :: t₁).dropLast) (a :: (y :: t₂).dropLast)
        exact List.Sublist.cons₂ a ih

theorem endpoints_sublist {α : Type} (d : α) : ∀ (l : List α), 2 ≤ l.length →
    List.Sublist [l.getD 0 d, l.getD (l.length - 1) d] l
  | [], h => by simp at h
  | a :: t, h => by
    have ht : 1 ≤ t.length := by
      simp only [List.length_cons] at h
      omega
    show List.Sublist (a :: [(a :: t).getD ((a :: t).length - 1) d]) (a :: t)
    refine List.Sublist.cons₂ a (List.singleton_sublist.mpr ?_)
    have h1 : (a :: t).length - 1 = (t.length - 1) + 1 := by
      simp only [List.length_cons]
      omega
    rw [h1]
    show t.getD (t.length - 1) d ∈ t
    exact getD_mem_of_lt t _ d (by omega)

theorem rdp_sublist (points : List (ℚ × ℚ)) (epsilon : ℚ) :
    List.Sublist (ramer_douglas_peucker points epsilon) points := by
  by_cases h : points.length < 3
  · rw [rdp_of_lt_three epsilon h]
  · by_cases hc : epsilon < 0 ∨ epsilon ^ 2 * rdpScale points < rdpDmaxSq points
    · have hb := rdpIndex_bounds points (by omega)
      rw [rdp_of_split epsilon h hc]
      have hL := rdp_sublist (points.take (rdpIndex points + 1)) epsilon
      have hR := rdp_sublist (points.drop (rdpIndex points)) epsilon
      have h1 := sublist_dropLast hL
      rw [List.dropLast_take (by omega), Nat.add_sub_cancel] at h1
      have h2 := List.Sublist.append h1 hR
      rw [List.take_append_drop] at h2
      exact h2
    · rw [rdp_of_flat epsilon h hc]
      exact endpoints_sublist (0, 0) points (by omega)
termination_by points.length
decreasing_by
  · simp only [List.length_take]
    omega
  · simp only [List.length_drop]
    omega

theorem idxOfMax_append : ∀ (A : List ℚ) (m : ℚ) (B : List ℚ),
    (∀ a ∈ A, a < m) → (∀ b ∈ B, b ≤ m) →
    idxOfMax (A ++ m :: B) = A.length
  | [], m, B, _, hB => by
    cases B with
    | nil => rfl
    | cons b bs =>
      show (if m < (b :: bs).getD (idxOfMax (b :: bs)) 0 then idxOfMax (b :: bs) + 1 else 0) = 0
      have hmem : (b :: bs).getD (idxOfMax (b :: bs)) 0 ∈ b :: bs :=
        getD_mem_of_lt _ _ _ (idxOfMax_lt_length _ (by simp))
      rw [if_neg (not_lt.mpr (hB _ hmem))]
  | a :: A', m, B, hA, hB => by
    have ih := idxOfMax_append A' m B (fun y hy => hA y (List.mem_cons_of_mem _ hy)) hB
    cases A' with
    | nil =>
      show (if a < (m :: B).getD (idxOfMax (m :: B)) 0 then idxOfMax (m :: B) + 1 else 0) = 1
      rw [show idxOfMax (m :: B) = 0 from ih]
      show (if a < m then 0 + 1 else 0) = 1
      rw [if_pos (hA a (List.mem_cons_self _ _))]
    | cons a2 A'' =>
      show (if a < (a2 :: (A'' ++ m :: B)).getD (idxOfMax (a2 :: (A'' ++ m :: B))) 0
        then idxOfMax (a2 :: (A'' ++ m :: B)) + 1 else 0) = (a :: a2 :: A'').length
      have ih2 : idxOfMax (a2 :: (A'' ++ m :: B)) = (a2 :: A'').length := ih
      rw [ih2]
      have hget : (a2 :: (A'' ++ m :: B)).getD (a2 :: A'').length 0 = m := by
        show (a2 :: A'' ++ m :: B).getD (a2 :: A'').length 0 = m
        rw [List.getD_append_right _ _ _ _ (le_refl _), Nat.sub_self]
        rfl
      rw [hget, if_pos (hA a (List.mem_cons_self _ _))]
      simp

/-- The per-point squared-distance function of ramer_douglas_peucker, determined by the
    two chord endpoints: squared distance to the start point when the chord is
    degenerate, squared chord cross product otherwise. -/
def distFun (p q x : ℚ × ℚ) : ℚ :=
  if distSq p q = 0 then distSq p x else (chordCross p q x) ^ 2

theorem rdpDistsSq_eq_map (l : List (ℚ × ℚ)) :
    rdpDistsSq l = ((l.drop 1).take (l.length - 2)).map
      (distFun (l.getD 0 (0, 0)) (l.getD (l.length - 1) (0, 0))) := by
  unfold rdpDistsSq distFun
  split
  · exact List.map_congr_left (fun a _ => rfl)
  · exact List.map_congr_left (fun a _ => rfl)

theorem DP_getD (points : List (ℚ × ℚ)) (k : ℕ) (h : k < points.length - 2) :
    (rdpDistsSq points).getD k 0 =
      distFun (points.getD 0 (0, 0)) (points.getD (points.length - 1) (0, 0))
        (points.getD (k + 1) (0, 0)) := by
  have hk : k < ((points.drop 1).take (points.length - 2)).length := by
    simp only [List.length_take, List.length_drop]
    omega
  rw [rdpDistsSq_eq_map, List.getD_eq_getElem?_getD,
    List.getElem?_eq_getElem (by simpa using hk), List.getElem_map, Option.getD_some,
    List.getElem_take, List.getElem_drop]
  congr 1
  have key : ∀ (i : ℕ) (hi : i < points.length), i = k + 1 →
      points.get ⟨i, hi⟩ = points.getD (k + 1) (0, 0) := by
    intro i hi he
    subst he
    rw [List.getD_eq_getElem?_getD, List.getElem?_eq_getElem hi]
    rfl
  exact key (1 + k) (by omega) (by omega)

theorem getD_eq_get_of_eq {α : Type} (l : List α) (d : α) {n m : ℕ} (h : n < l.length)
    (he : m = n) : l.getD m d = l.get ⟨n, h⟩ := by
  subst he
  rw [List.getD_eq_getElem?_getD, List.getElem?_eq_getElem h]
  rfl

theorem rdp_idem (points : List (ℚ × ℚ)) (epsilon : ℚ) :
    ramer_douglas_peucker (ramer_douglas_peucker points epsilon) epsilon =
      ramer_douglas_peucker points epsilon := by
  by_cases h3 : points.length < 3
  · rw [rdp_of_lt_three epsilon h3, rdp_of_lt_three epsilon h3]
  · by_cases hc : epsilon < 0 ∨ epsilon ^ 2 * rdpScale points < rdpDmaxSq points
    · have hb := rdpIndex_bounds points (by omega)
      have hLfix := rdp_idem (points.take (rdpIndex points + 1)) epsilon
      have hRfix := rdp_idem (points.drop (rdpIndex points)) epsilon
      obtain ⟨L, hLdef⟩ : ∃ L,
          ramer_douglas_peucker (points.take (rdpIndex points + 1)) epsilon = L := ⟨_, rfl⟩
      obtain ⟨R, hRdef⟩ : ∃ R,
          ramer_douglas_peucker (points.drop (rdpIndex points)) epsilon = R := ⟨_, rfl⟩
      rw [hLdef] at hLfix
      rw [hRdef] at hRfix
      have hL2 : 2 ≤ L.length := by
        rw [← hLdef]
        exact rdp_two_le_length _ _ (by simp only [List.length_take]; omega)
      have hR2 : 2 ≤ R.length := by
        rw [← hRdef]
        exact rdp_two_le_length _ _ (by simp only [List.length_drop]; omega)
      have hO : ramer_douglas_peucker points epsilon = L.dropLast ++ R := by
        rw [rdp_of_split epsilon h3 hc, hLdef, hRdef]
      obtain ⟨x, hx⟩ : ∃ x, points.getD (rdpIndex points) (0, 0) = x := ⟨_, rfl⟩
      have hRhead : R.head? = some x := by
        rw [← hRdef, rdp_head?, List.head?_drop,
          List.getElem?_eq_getElem (show rdpIndex points < points.length by omega), ← hx]
        exact congrArg some (getD_eq_get_of_eq points (0, 0) (by omega) rfl).symm
      have hLlast : L.getLast? = some x := by
        rw [← hLdef, rdp_getLast?, List.getLast?_take,
          if_neg (by omega : ¬ rdpIndex points + 1 = 0), Nat.add_sub_cancel,
          List.getElem?_eq_getElem (show rdpIndex points < points.length by omega), ← hx]
        exact congrArg some (getD_eq_get_of_eq points (0, 0) (by omega) rfl).symm
      obtain ⟨R2, hR2def⟩ : ∃ R2, R = x :: R2 := by
        cases R with
        | nil => simp at hRhead
        | cons r rest =>
          have hr : r = x := by simpa using hRhead
          exact ⟨rest, by rw [hr]⟩
      have hR2len : 1 ≤ R2.length := by
        rw [hR2def] at hR2
        simp only [List.length_cons] at hR2
        omega
      have hLne : L ≠ [] := by
        intro hnil
        rw [hnil] at hL2
        simp at hL2
      obtain ⟨K, hKdef⟩ : ∃ K, L.dropLast = K := ⟨_, rfl⟩
      have hKlen : 1 ≤ K.length := by
        rw [← hKdef, List.length_dropLast]
        omega
      have hLsplit : K ++ [x] = L := by
        have h1 := List.dropLast_append_getLast hLne
        have h2 : L.getLast hLne = x := by
          have h4 := List.getLast?_eq_getLast L hLne
          rw [hLlast] at h4
          exact (Option.some.inj h4).symm
        rw [h2, hKdef] at h1
        exact h1
      have hOdecomp : ramer_douglas_peucker points epsilon = K ++ x :: R2 := by
        rw [hO, hKdef, hR2def]
      rw [hOdecomp]
      have hOh : (K ++ x :: R2).head? = points.head? := by rw [← hOdecomp, rdp_head?]
      have hOl : (K ++ x :: R2).getLast? = points.getLast? := by rw [← hOdecomp, rdp_getLast?]
      have hGD0 : (K ++ x :: R2).getD 0 (0, 0) = points.getD 0 (0, 0) :=
        head?_getD_eq hOh (0, 0)
      have hGDl : (K ++ x :: R2).getD ((K ++ x :: R2).length - 1) (0, 0) =
          points.getD (points.length - 1) (0, 0) := getLast?_getD_eq hOl (0, 0)
      have hscale : rdpScale (K ++ x :: R2) = rdpScale points := by
        unfold rdpScale
        rw [hGD0, hGDl]
      have hint : ((K ++ x :: R2).drop 1).take ((K ++ x :: R2).length - 2) =
          K.drop 1 ++ x :: R2.dropLast := by
        have hlen1 : (K.drop 1).length ≤ (K ++ x :: R2).length - 2 := by
          simp only [List.length_drop, List.length_append, List.length_cons]
          omega
        rw [List.drop_append_eq_append_drop, (show 1 - K.length = 0 by omega), List.drop_zero,
          List.take_append_eq_append_take, List.take_of_length_le hlen1]
        congr 1
        have hn : (K ++ x :: R2).length - 2 - (K.drop 1).length = R2.length := by
          simp only [List.length_append, List.length_cons, List.length_drop]
          omega
        rw [hn, (show R2.length = (R2.length - 1) + 1 by omega), List.take_succ_cons]
        congr 1
        rw [List.dropLast_eq_take]
      have hDO : rdpDistsSq (K ++ x :: R2) =
          (K.drop 1).map (distFun (points.getD 0 (0, 0))
              (points.getD (points.length - 1) (0, 0))) ++
            distFun (points.getD 0 (0, 0)) (points.getD (points.length - 1) (0, 0)) x ::
            (R2.dropLast).map (distFun (points.getD 0 (0, 0))
              (points.getD (points.length - 1) (0, 0))) := by
        rw [rdpDistsSq_eq_map, hGD0, hGDl, hint, List.map_append, List.map_cons]
      have hKsub : List.Sublist K (points.take (rdpIndex points)) := by
        rw [← hKdef]
        have h1 : List.Sublist L (points.take (rdpIndex points + 1)) := by
          rw [← hLdef]
          exact rdp_sublist _ _
        have h2 := sublist_dropLast h1
        rw [List.dropLast_take (by omega), Nat.add_sub_cancel] at h2
        exact h2
      have hKdsub : List.Sublist (K.drop 1) ((points.drop 1).take (rdpIndex points - 1)) := by
        have h1 := List.Sublist.drop hKsub 1
        rw [List.drop_take] at h1
        exact h1
      have hR2sub : List.Sublist R2 (points.drop (rdpIndex points + 1)) := by
        have h1 : List.Sublist R (points.drop (rdpIndex points)) := by
          rw [← hRdef]
          exact rdp_sublist _ _
        rw [hR2def] at h1
        have h2 := List.Sublist.drop h1 1
        rw [List.drop_drop] at h2
        simpa using h2
      have hR2dsub : List.Sublist R2.dropLast (points.drop 1).dropLast := by
        refine List.Sublist.trans (sublist_dropLast hR2sub) (sublist_dropLast ?_)
        have h1 := List.drop_sublist (rdpIndex points) (points.drop 1)
        rw [List.drop_drop] at h1
        rw [(show rdpIndex points + 1 = 1 + rdpIndex points by omega)]
        exact h1
      have hDPlen := rdpDistsSq_length points
      have hidxdef : rdpIndex points = idxOfMax (rdpDistsSq points) + 1 := rfl
      have hjlt : idxOfMax (rdpDistsSq points) < points.length - 2 := by
        have h1 := idxOfMax_lt_length (rdpDistsSq points) (by
          intro hnil
          rw [hnil] at hDPlen
          simp only [List.length_nil] at hDPlen
          omega)
        omega
      have hdm : rdpDmaxSq points =
          (rdpDistsSq points).getD (idxOfMax (rdpDistsSq points)) 0 := rfl
      have hfx : distFun (points.getD 0 (0, 0)) (points.getD (points.length - 1) (0, 0)) x =
          rdpDmaxSq points := by
        rw [← hx, hidxdef, hdm]
        exact (DP_getD points (idxOfMax (rdpDistsSq points)) hjlt).symm
      have hstrict : ∀ a ∈ (K.drop 1).map (distFun (points.getD 0 (0, 0))
          (points.getD (points.length - 1) (0, 0))),
          a < distFun (points.getD 0 (0, 0)) (points.getD (points.length - 1) (0, 0)) x := by
        intro a ha
        obtain ⟨p, hp, rfl⟩ := List.mem_map.mp ha
        have hpmem := List.Sublist.subset hKdsub hp
        obtain ⟨kk, hkk, hpk⟩ := List.mem_iff_getElem.mp hpmem
        have hkb : kk < rdpIndex points - 1 := by
          simp only [List.length_take, List.length_drop] at hkk
          omega
        rw [List.getElem_take, List.getElem_drop] at hpk
        have hpd : points.getD (kk + 1) (0, 0) = p := by
          rw [← hpk]
          exact getD_eq_get_of_eq points (0, 0) (by omega) (by omega)
        have h1 := DP_getD points kk (by omega)
        rw [hpd] at h1
        rw [← h1, hfx, hdm]
        exact getD_lt_of_lt_idxOfMax (rdpDistsSq points) kk (by omega)
      have hle : ∀ b ∈ (R2.dropLast).map (distFun (points.getD 0 (0, 0))
          (points.getD (points.length - 1) (0, 0))),
          b ≤ distFun (points.getD 0 (0, 0)) (points.getD (points.length - 1) (0, 0)) x := by
        intro a ha
        obtain ⟨p, hp, rfl⟩ := List.mem_map.mp ha
        have hpmem := List.Sublist.subset hR2dsub hp
        obtain ⟨kk, hkk, hpk⟩ := List.mem_iff_getElem.mp hpmem
        have hkb : kk < points.length - 2 := by
          simp only [List.length_dropLast, List.length_drop] at hkk
          omega
        rw [List.getElem_dropLast, List.getElem_drop] at hpk
        have hpd : points.getD (kk + 1) (0, 0) = p := by
          rw [← hpk]
          exact getD_eq_get_of_eq points (0, 0) (by omega) (by omega)
        have h1 := DP_getD points kk hkb
        rw [hpd] at h1
        rw [← h1, hfx, hdm]
        exact getD_le_idxOfMax (rdpDistsSq points) kk (by omega)
      have hidxO : idxOfMax (rdpDistsSq (K ++ x :: R2)) =
          ((K.drop 1).map (distFun (points.getD 0 (0, 0))
            (points.getD (points.length - 1) (0, 0)))).length := by
        rw [hDO]
        exact idxOfMax_append _ _ _ hstrict hle
      have hrdpIdxO : rdpIndex (K ++ x :: R2) = K.length := by
        show idxOfMax (rdpDistsSq (K ++ x :: R2)) + 1 = K.length
        rw [hidxO]
        simp only [List.length_map, List.length_drop]
        omega
      have hdmaxO : rdpDmaxSq (K ++ x :: R2) = rdpDmaxSq points := by
        show (rdpDistsSq (K ++ x :: R2)).getD (idxOfMax (rdpDistsSq (K ++ x :: R2))) 0 = _
        rw [hidxO, hDO, List.getD_append_right _ _ _ _ (le_refl _), Nat.sub_self]
        exact hfx
      have hcO : epsilon < 0 ∨
          epsilon ^ 2 * rdpScale (K ++ x :: R2) < rdpDmaxSq (K ++ x :: R2) := by
        rw [hscale, hdmaxO]
        exact hc
      have hOlen3 : ¬ (K ++ x :: R2).length < 3 := by
        simp only [List.length_append, List.length_cons]
        omega
      rw [rdp_of_split epsilon hOlen3 hcO, hrdpIdxO]
      have htake : (K ++ x :: R2).take (K.length + 1) = L := by
        rw [List.take_append_eq_append_take, List.take_of_length_le (by omega),
          (show K.length + 1 - K.length = 0 + 1 by omega), List.take_succ_cons, List.take_zero]
        exact hLsplit
      have hdrop : (K ++ x :: R2).drop K.length = R := by
        rw [List.drop_append_eq_append_drop, List.drop_length, Nat.sub_self, List.drop_zero,
          List.nil_append]
        exact hR2def.symm
      rw [htake, hdrop, hLfix, hRfix, hKdef, hR2def]
    · rw [rdp_of_flat epsilon h3 hc]
      exact rdp_of_lt_three epsilon (by simp)
termination_by points.length
decreasing_by
  · simp only [List.length_take]
    omega
  · simp only [List.length_drop]
    omega

/-- C6: the curve simplifier is idempotent: for every polyline and every tolerance,
    running ramer_douglas_peucker on its own output with the same epsilon returns that
    output unchanged. -/
theorem claim_C6_idempotent (points : List (ℚ × ℚ)) (epsilon : ℚ) :
    ramer_douglas_peucker (ramer_douglas_peucker points epsilon) epsilon =
      ramer_douglas_peucker points epsilon :=
  rdp_idem points epsilon
